import Mathlib

/-!
Verification of the Split-Simplify markdown tools
(`simplify_markdown.py` and `split_markdown.py`).

Lines are modelled as `List Char`.  Each Python regex rule is embedded as an
executable function on `List Char`; unanchored `re.sub` calls are modelled by
the generic left-to-right scanner `scanSub` together with a per-rule matcher
that mirrors the regex (all the regexes in this code base are of the
"negated-character-class until a delimiter" kind, whose Python backtracking
semantics coincide with the deterministic longest-run reading implemented
here; the two word-boundary patterns of `wrap_technical_terms_in_italic` are
implemented through the maximal-run characterisation of `\b` spelled out in
the comments at their definitions).
-/

namespace SplitSimplify

/-- Python `\s` / `str.isspace` character set (Unicode whitespace). -/
def isPySpace (c : Char) : Bool :=
  c.toNat = 9 ∨ c.toNat = 10 ∨ c.toNat = 11 ∨ c.toNat = 12 ∨ c.toNat = 13 ∨
  c.toNat = 28 ∨ c.toNat = 29 ∨ c.toNat = 30 ∨ c.toNat = 31 ∨ c.toNat = 32 ∨
  c.toNat = 133 ∨ c.toNat = 160 ∨ c.toNat = 5760 ∨
  (8192 ≤ c.toNat ∧ c.toNat ≤ 8202) ∨
  c.toNat = 8232 ∨ c.toNat = 8233 ∨ c.toNat = 8239 ∨ c.toNat = 8287 ∨
  c.toNat = 12288

/-- ASCII decimal digit, modelling `\d` on the documents at hand. -/
def isPyDigit (c : Char) : Bool := '0' ≤ c ∧ c ≤ '9'

def isAsciiLower (c : Char) : Bool := 'a' ≤ c ∧ c ≤ 'z'

def isAsciiUpper (c : Char) : Bool := 'A' ≤ c ∧ c ≤ 'Z'

def isAsciiAlpha (c : Char) : Bool := isAsciiLower c || isAsciiUpper c

/-- Python `\w` word character: ASCII alphanumerics, `_`, and (for the
Cyrillic text these documents contain) the Cyrillic letter block. -/
def isWordChar (c : Char) : Bool :=
  isAsciiAlpha c || isPyDigit c || c = '_' ||
  (1024 ≤ c.toNat && c.toNat ≤ 1279)

/-- Case folding used for `re.IGNORECASE`: ASCII plus the Cyrillic block. -/
def pyLower (c : Char) : Char :=
  if isAsciiUpper c then Char.ofNat (c.toNat + 32)
  else if 1040 ≤ c.toNat ∧ c.toNat ≤ 1071 then Char.ofNat (c.toNat + 32)
  else if c.toNat = 1025 then Char.ofNat 1105
  else c

/-- `str.lstrip()`. -/
def pyLstrip (l : List Char) : List Char := l.dropWhile isPySpace

/-- `str.rstrip()`. -/
def pyRstrip (l : List Char) : List Char :=
  (l.reverse.dropWhile isPySpace).reverse

/-- `str.strip()`. -/
def pyStrip (l : List Char) : List Char := pyRstrip (pyLstrip l)

/-- `str.rstrip('\n\r')` (used on the lines read by the rewrite pipeline). -/
def rstripNL (l : List Char) : List Char :=
  (l.reverse.dropWhile (fun c => c = '\n' ∨ c = '\r')).reverse

/-- `str.startswith(pat)`. -/
def startsWithL (pat l : List Char) : Bool := List.isPrefixOf pat l

/-- `str.endswith(pat)`. -/
def endsWithL (pat l : List Char) : Bool :=
  List.isPrefixOf pat.reverse l.reverse

/-- `str.count(ch)` for a single character. -/
def countChar (c : Char) (l : List Char) : Nat := l.count c

/-- Substring containment (`pat in s`). -/
def containsSub (pat : List Char) : List Char → Bool
  | [] => List.isPrefixOf pat []
  | c :: rest => List.isPrefixOf pat (c :: rest) || containsSub pat rest

/-- Python text-mode universal-newline translation on input:
`"\r\n" → "\n"` and lone `"\r" → "\n"`. -/
def univNL : List Char → List Char
  | [] => []
  | '\r' :: '\n' :: rest => '\n' :: univNL rest
  | '\r' :: rest => '\n' :: univNL rest
  | c :: rest => c :: univNL rest

/-- `file.readlines()`: split after every `'\n'`, keeping the delimiter;
a final chunk without a delimiter is kept as well. -/
def splitKeepAux : List Char → List Char → List (List Char)
  | acc, [] => if acc.isEmpty then [] else [acc.reverse]
  | acc, c :: rest =>
    if c = '\n' then (acc.reverse ++ ['\n']) :: splitKeepAux [] rest
    else splitKeepAux (c :: acc) rest

def splitKeep (l : List Char) : List (List Char) := splitKeepAux [] l

/-- `'\n'.join(lines)`. -/
def joinLF : List (List Char) → List Char
  | [] => []
  | [l] => l
  | l :: rest => l ++ '\n' :: joinLF rest

/-- `''.join(lines)`. -/
def joinAll : List (List Char) → List Char
  | [] => []
  | l :: rest => l ++ joinAll rest

/-- Decimal rendering of a natural number, as Python `str(n)` renders it. -/
def natToStrAux : Nat → Nat → List Char
  | 0, _ => []
  | fuel + 1, n =>
    if n < 10 then [Char.ofNat (48 + n)]
    else natToStrAux fuel (n / 10) ++ [Char.ofNat (48 + n % 10)]

def natToStr (n : Nat) : List Char := natToStrAux (n + 1) n

/-- `' ' * n`. -/
def spacesN : Nat → List Char
  | 0 => []
  | n + 1 => ' ' :: spacesN n

/-!
## The substitution engine

`re.sub` with the patterns used by this code base: scan left to right, at
each position ask the matcher (which sees the previous original character,
for look-behinds, and the remaining suffix) for a match; on a match emit the
replacement and continue after the consumed characters, otherwise emit the
current character and move on one position.
-/

/-- A matcher: previous original character and remaining suffix, returning
the number of consumed characters (must be positive) and the replacement. -/
def Matcher := Option Char → List Char → Option (Nat × List Char)

def scanSub (m : Matcher) : Nat → Option Char → List Char → List Char
  | 0, _, l => l
  | _ + 1, _, [] => []
  | fuel + 1, prev, c :: cs =>
    match m prev (c :: cs) with
    | some (n, repl) =>
      if n = 0 then c :: scanSub m fuel (some c) cs
      else repl ++ scanSub m fuel (((c :: cs).take n).getLast?) ((c :: cs).drop n)
    | none => c :: scanSub m fuel (some c) cs

def runSub (m : Matcher) (l : List Char) : List Char :=
  scanSub m l.length none l

/-- Is there a match anywhere (`re.search`)? -/
def existsMatch (m : Matcher) : Option Char → List Char → Bool
  | _, [] => false
  | prev, c :: cs => (m prev (c :: cs)).isSome || existsMatch m (some c) cs

/-- The backtick character (written by code point). -/
def bqChar : Char := Char.ofNat 96

/-- Case-insensitive `startswith` against a lowercase pattern. -/
def startsWithCI (pat l : List Char) : Bool :=
  List.isPrefixOf pat ((l.take pat.length).map pyLower)

/-!
## Shared parsers for the list-item patterns
-/

/-- `^(\s*(?:-|\d+\.)\s+)` : leading whitespace, a bullet or numbered marker,
then at least one whitespace character.  Returns the consumed group and the
remaining characters. -/
def parseListMarker (l : List Char) : Option (List Char × List Char) :=
  let ws1 := l.takeWhile isPySpace
  match l.dropWhile isPySpace with
  | '-' :: r2 =>
    let ws2 := r2.takeWhile isPySpace
    if ws2.isEmpty then none
    else some (ws1 ++ '-' :: ws2, r2.dropWhile isPySpace)
  | r1 =>
    let ds := r1.takeWhile isPyDigit
    if ds.isEmpty then none
    else match r1.dropWhile isPyDigit with
      | '.' :: r3 =>
        let ws2 := r3.takeWhile isPySpace
        if ws2.isEmpty then none
        else some (ws1 ++ ds ++ '.' :: ws2, r3.dropWhile isPySpace)
      | _ => none

/-- `re.match(r'^\s*(-|\d+\.)\s+', line)` used as a guard. -/
def isListLine (l : List Char) : Bool := (parseListMarker l).isSome

/-- `re.match(r'^\s*\d+\.\s+', line)` used as a guard. -/
def isNumberedLine (l : List Char) : Bool :=
  let r1 := l.dropWhile isPySpace
  let ds := r1.takeWhile isPyDigit
  if ds.isEmpty then false
  else match r1.dropWhile isPyDigit with
    | '.' :: r3 => !(r3.takeWhile isPySpace).isEmpty
    | _ => false

/-- Tail pattern `\s+(.+)$` : at least one whitespace character, then a
nonempty remainder (by greedy backtracking, when everything after the first
mandatory whitespace is whitespace the captured group is the final
character). -/
def tailSpacePlus (l : List Char) : Option (List Char) :=
  let ws := l.takeWhile isPySpace
  let t := l.dropWhile isPySpace
  if ws.isEmpty then none
  else if t.isEmpty then
    if 2 ≤ l.length then some [l.getLastD ' '] else none
  else some t

/-- Tail pattern `\s*(.+)$`. -/
def tailSpaceStar (l : List Char) : Option (List Char) :=
  let t := l.dropWhile isPySpace
  if t.isEmpty then
    if l.isEmpty then none else some [l.getLastD ' ']
  else some t

/-!
## The per-line rules of `simplify_markdown.py`
(`simplify_mixed_formatting` is present in the source but disabled in the
pipeline, and is not modelled.)
-/

/-- `normalize_headers` : `^(#{1,6})\s+(.+)$` → `### \2`. -/
def normalize_headers (l : List Char) : List Char :=
  let hashes := l.takeWhile (· = '#')
  if 1 ≤ hashes.length ∧ hashes.length ≤ 6 then
    match tailSpacePlus (l.dropWhile (· = '#')) with
    | some g2 => "### ".data ++ g2
    | none => l
  else l

/-- `remove_checklists` : `^(\s*-)\s*\[([ xX])\]\s*` → `\1 `. -/
def remove_checklists (l : List Char) : List Char :=
  let ws1 := l.takeWhile isPySpace
  match l.dropWhile isPySpace with
  | '-' :: r2 =>
    (match r2.dropWhile isPySpace with
     | '[' :: x :: ']' :: r4 =>
       if x = ' ' ∨ x = 'x' ∨ x = 'X' then
         ws1 ++ '-' :: ' ' :: r4.dropWhile isPySpace
       else l
     | _ => l)
  | _ => l

/-- Shared front of the two `fix_bold_colon_in_lists` patterns:
list marker, `**`, then the nonempty run `[^*]+` and what follows it. -/
def bold_colon_core (l : List Char) : Option (List Char × List Char × List Char) :=
  match parseListMarker l with
  | none => none
  | some (g1, rest) =>
    match rest with
    | '*' :: '*' :: r2 =>
      let seg := r2.takeWhile (· ≠ '*')
      if seg.isEmpty then none else some (g1, seg, r2.dropWhile (· ≠ '*'))
    | _ => none

/-- Pattern 1 of `fix_bold_colon_in_lists`:
`^(\s*(?:-|\d+\.)\s+)\*\*([^*]+):\*\*\s*(.+)$` → `\1\2: \3`. -/
def bold_colon_p1 (l : List Char) : Option (List Char) :=
  match bold_colon_core l with
  | some (g1, seg, '*' :: '*' :: r3) =>
    if seg.getLast? = some ':' ∧ 2 ≤ seg.length then
      match tailSpaceStar r3 with
      | some g3 => some (g1 ++ seg.dropLast ++ ':' :: ' ' :: g3)
      | none => none
    else none
  | _ => none

/-- Pattern 2 of `fix_bold_colon_in_lists`:
`^(\s*(?:-|\d+\.)\s+)\*\*([^*]+)\*\*:\s*(.+)$` → `\1\2: \3`. -/
def bold_colon_p2 (l : List Char) : Option (List Char) :=
  match bold_colon_core l with
  | some (g1, seg, '*' :: '*' :: ':' :: r3) =>
    (match tailSpaceStar r3 with
     | some g3 => some (g1 ++ seg ++ ':' :: ' ' :: g3)
     | none => none)
  | _ => none

def fix_bold_colon_in_lists (l : List Char) : List Char :=
  match bold_colon_p1 l with
  | some r => r
  | none =>
    match bold_colon_p2 l with
    | some r => r
    | none => l

/-- Shared front of the three `fix_code_with_dash_in_lists` patterns:
list marker, then `` `([^`]+)` ``, returning marker group, code group and
the remainder after the closing backtick. -/
def code_dash_core (l : List Char) : Option (List Char × List Char × List Char) :=
  match parseListMarker l with
  | none => none
  | some (g1, rest) =>
    match rest with
    | c :: r2 =>
      if c = bqChar then
        let seg := r2.takeWhile (· ≠ bqChar)
        if seg.isEmpty then none
        else match r2.dropWhile (· ≠ bqChar) with
          | _ :: r3 => some (g1, seg, r3)
          | [] => none
      else none
    | [] => none

/-- `fix_code_with_dash_in_lists` : separator `—`, `:` or `-` after the
code span, with `\s*SEP\s*(.+)$` tails, applied in the source order. -/
def fix_code_with_dash_in_lists (l : List Char) : List Char :=
  match code_dash_core l with
  | none => l
  | some (g1, seg, r3) =>
    match r3.dropWhile isPySpace with
    | '—' :: r4 =>
      (match tailSpaceStar r4 with
       | some g3 => g1 ++ seg ++ ' ' :: '—' :: ' ' :: g3
       | none => l)
    | ':' :: r4 =>
      (match tailSpaceStar r4 with
       | some g3 => g1 ++ seg ++ ':' :: ' ' :: g3
       | none => l)
    | '-' :: r4 =>
      (match tailSpaceStar r4 with
       | some g3 => g1 ++ seg ++ ' ' :: '-' :: ' ' :: g3
       | none => l)
    | _ => l

/-- Matcher for `\*\*([^*]+)\*\*` replaced by `\1`. -/
def bold_pair_matcher : Matcher := fun _ s =>
  match s with
  | '*' :: '*' :: r2 =>
    let seg := r2.takeWhile (· ≠ '*')
    if seg.isEmpty then none
    else match r2.dropWhile (· ≠ '*') with
      | '*' :: '*' :: _ => some (4 + seg.length, seg)
      | _ => none
  | _ => none

/-- `remove_bold_in_lists`. -/
def remove_bold_in_lists (l : List Char) : List Char :=
  if isListLine l then runSub bold_pair_matcher l else l

/-- Matcher for `` `([^`]+)` `` replaced by `\1`. -/
def backtick_strip_matcher : Matcher := fun _ s =>
  match s with
  | c :: r2 =>
    if c = bqChar then
      let seg := r2.takeWhile (· ≠ bqChar)
      if seg.isEmpty then none
      else if (r2.dropWhile (· ≠ bqChar)).isEmpty then none
      else some (2 + seg.length, seg)
    else none
  | [] => none

/-- `remove_code_in_lists`. -/
def remove_code_in_lists (l : List Char) : List Char :=
  if isListLine l then runSub backtick_strip_matcher l else l

/-- The emoji ranges of `fix_emoji_at_list_start`. -/
def isEmojiChar (c : Char) : Bool :=
  (0x1F300 ≤ c.toNat ∧ c.toNat ≤ 0x1F9FF) ∨
  (0x1F600 ≤ c.toNat ∧ c.toNat ≤ 0x1F64F) ∨
  (0x1F680 ≤ c.toNat ∧ c.toNat ≤ 0x1F6FF) ∨
  (0x2600 ≤ c.toNat ∧ c.toNat ≤ 0x27BF) ∨
  (0x1F1E0 ≤ c.toNat ∧ c.toNat ≤ 0x1F1FF) ∨
  (0x1F900 ≤ c.toNat ∧ c.toNat ≤ 0x1F9FF) ∨
  (0x1FA70 ≤ c.toNat ∧ c.toNat ≤ 0x1FAFF)

/-- `fix_emoji_at_list_start` :
`^(\s*(?:-|\d+\.)\s+)(EMOJI[️]?)\s+(.+)$` → `\1\2: \3`. -/
def fix_emoji_at_list_start (l : List Char) : List Char :=
  match parseListMarker l with
  | none => l
  | some (g1, rest) =>
    match rest with
    | e :: r2 =>
      if isEmojiChar e then
        match r2 with
        | v :: r3 =>
          if v.toNat = 0xFE0F then
            match tailSpacePlus r3 with
            | some g3 => g1 ++ e :: v :: ':' :: ' ' :: g3
            | none => l
          else
            match tailSpacePlus r2 with
            | some g3 => g1 ++ e :: ':' :: ' ' :: g3
            | none => l
        | [] => l
      else l
    | [] => l

/-- Matcher for `<tag>([^<]+)</tag>` (case-insensitive), replaced by the
content wrapped in the given markers. -/
def html_tag_matcher (openTag closeTag wrapL wrapR : List Char) : Matcher := fun _ s =>
  if startsWithCI openTag s then
    let r2 := s.drop openTag.length
    let seg := r2.takeWhile (· ≠ '<')
    if seg.isEmpty then none
    else if startsWithCI closeTag (r2.dropWhile (· ≠ '<')) then
      some (openTag.length + seg.length + closeTag.length, wrapL ++ seg ++ wrapR)
    else none
  else none

/-- Matcher for the generic `<([a-z]+)>([^<]+)</\1>` (case-insensitive,
including the backreference), replaced by the content. -/
def html_generic_matcher : Matcher := fun _ s =>
  match s with
  | '<' :: r1 =>
    let tag := r1.takeWhile isAsciiAlpha
    if tag.isEmpty then none
    else match r1.drop tag.length with
      | '>' :: r2 =>
        let seg := r2.takeWhile (· ≠ '<')
        if seg.isEmpty then none
        else
          (match r2.dropWhile (· ≠ '<') with
           | '<' :: '/' :: r3 =>
             if (r3.take tag.length).map pyLower = tag.map pyLower then
               match r3.drop tag.length with
               | '>' :: _ => some (2 * tag.length + 5 + seg.length, seg)
               | _ => none
             else none
           | _ => none)
      | _ => none
  | _ => none

/-- `remove_html_tags` : the four specific tag rewrites then the generic
tag unwrap, in source order. -/
def remove_html_tags (l : List Char) : List Char :=
  let l1 := runSub (html_tag_matcher "<b>".data "</b>".data "**".data "**".data) l
  let l2 := runSub (html_tag_matcher "<i>".data "</i>".data "*".data "*".data) l1
  let l3 := runSub (html_tag_matcher "<strong>".data "</strong>".data "**".data "**".data) l2
  let l4 := runSub (html_tag_matcher "<em>".data "</em>".data "*".data "*".data) l3
  runSub html_generic_matcher l4

/-- The repeated-group stripper for `^(\s*>\s+)+`. -/
def strip_bq_aux : Nat → List Char → List Char
  | 0, l => l
  | fuel + 1, l =>
    match l.dropWhile isPySpace with
    | '>' :: r2 =>
      if (r2.takeWhile isPySpace).isEmpty then l
      else strip_bq_aux fuel (r2.dropWhile isPySpace)
    | _ => l

/-- `remove_blockquotes` : `re.sub(r'^(\s*>\s+)+', '', line)`. -/
def remove_blockquotes (l : List Char) : List Char :=
  strip_bq_aux l.length l

/-- Matcher for `https?://([^\s)]+)` replaced by `\1`. -/
def bare_url_matcher : Matcher := fun _ s =>
  if startsWithL "https://".data s then
    let seg := (s.drop 8).takeWhile (fun c => ¬ isPySpace c ∧ c ≠ ')')
    if seg.isEmpty then none else some (8 + seg.length, seg)
  else if startsWithL "http://".data s then
    let seg := (s.drop 7).takeWhile (fun c => ¬ isPySpace c ∧ c ≠ ')')
    if seg.isEmpty then none else some (7 + seg.length, seg)
  else none

def remove_bare_urls (l : List Char) : List Char := runSub bare_url_matcher l

def image_extensions : List (List Char) :=
  [".png".data, ".jpg".data, ".jpeg".data, ".gif".data, ".svg".data,
   ".webp".data, ".bmp".data]

/-- `any(url.lower().endswith(ext) for ext in image_extensions)`;
also `MarkdownSplitter.is_image_path` (same extension tuple). -/
def is_image_url (url : List Char) : Bool :=
  image_extensions.any (fun ext => endsWithL ext (url.map pyLower))

/-- `re.sub(r'^https?://', '', url)`. -/
def strip_protocol (url : List Char) : List Char :=
  if startsWithL "https://".data url then url.drop 8
  else if startsWithL "http://".data url then url.drop 7
  else url

/-- Parse `(!?)\[(alt)\]\((url)\)` at the head of `s`.  `altStar` selects
between the splitter's `[^\]]*` and the rewrite pipeline's `[^\]]+` for the
bracketed text.  Returns the bang flag, text, url and consumed length. -/
def link_parse_core (altStar : Bool) (bang : Bool) (r0 : List Char) :
    Option (Bool × List Char × List Char × Nat) :=
  let alt := r0.takeWhile (· ≠ ']')
  if alt.isEmpty ∧ ¬ altStar then none
  else match r0.dropWhile (· ≠ ']') with
    | ']' :: '(' :: r2 =>
      let url := r2.takeWhile (· ≠ ')')
      if url.isEmpty then none
      else
        (match r2.dropWhile (· ≠ ')') with
         | ')' :: _ =>
           some (bang, alt, url, (if bang then 2 else 1) + alt.length + 2 + url.length + 1)
         | _ => none)
    | _ => none

def link_parse (altStar : Bool) (s : List Char) : Option (Bool × List Char × List Char × Nat) :=
  match s with
  | '!' :: '[' :: r0 => link_parse_core altStar true r0
  | '[' :: r0 => link_parse_core altStar false r0
  | _ => none

/-- Matcher for `convert_markdown_links` : image links (bang or image
extension) are kept verbatim, other links become `*text (url_clean)*`. -/
def convert_link_matcher : Matcher := fun _ s =>
  match link_parse false s with
  | none => none
  | some (bang, text, url, total) =>
    if bang ∨ is_image_url url then some (total, s.take total)
    else some (total, '*' :: text ++ ' ' :: '(' :: strip_protocol url ++ ")*".data)

def convert_markdown_links (l : List Char) : List Char := runSub convert_link_matcher l

/-- Separator tail `(\s*—\s*|\s+)` of the operator-quoting pattern. -/
def op_sep_parse (r : List Char) : Option (List Char) :=
  let ws := r.takeWhile isPySpace
  match r.dropWhile isPySpace with
  | '—' :: r2 => some (ws ++ '—' :: r2.takeWhile isPySpace)
  | _ => if ws.isEmpty then none else some ws

/-- Matcher for `(\s|^)(OP)(\s*—\s*|\s+)` → `\1"\2"\3`. -/
def op_matcher (op : List Char) : Matcher := fun prev s =>
  match s with
  | c :: r1 =>
    if isPySpace c ∧ startsWithL op r1 then
      match op_sep_parse (r1.drop op.length) with
      | some sep => some (1 + op.length + sep.length, c :: '"' :: op ++ '"' :: sep)
      | none => none
    else if prev = none ∧ startsWithL op s then
      match op_sep_parse (s.drop op.length) with
      | some sep => some (op.length + sep.length, '"' :: op ++ '"' :: sep)
      | none => none
    else none
  | [] => none

/-- The operator list of `quote_operators_in_lists`, in source order. -/
def quote_ops_list : List (List Char) :=
  ["->".data, "->>".data, "@>".data, "?".data, "<=".data, ">=".data, "!=".data]

/-- `re.match(r'^\s*>\s+', line)` guard. -/
def blockquote_guard (l : List Char) : Bool :=
  match l.dropWhile isPySpace with
  | '>' :: r2 => !(r2.takeWhile isPySpace).isEmpty
  | _ => false

def quote_operators_in_lists (l : List Char) : List Char :=
  if startsWithL "```".data (pyStrip l) then l
  else if blockquote_guard l then l
  else quote_ops_list.foldl (fun acc op => runSub (op_matcher op) acc) l

/-- Matcher for `` `([^`]+)` `` replaced by `*\1*`. -/
def backtick_italic_matcher : Matcher := fun _ s =>
  match s with
  | c :: r2 =>
    if c = bqChar then
      let seg := r2.takeWhile (· ≠ bqChar)
      if seg.isEmpty then none
      else if (r2.dropWhile (· ≠ bqChar)).isEmpty then none
      else some (2 + seg.length, '*' :: seg ++ ['*'])
    else none
  | [] => none

/-- `remove_inline_code_everywhere` (the table-row branch of the source
only executes `pass` and has no effect). -/
def remove_inline_code_everywhere (l : List Char) : List Char :=
  if startsWithL "```".data (pyStrip l) then l
  else runSub backtick_italic_matcher l

/-- The stoplist of `wrap_technical_terms_in_italic`. -/
def common_words : List (List Char) :=
  ["is".data, "are".data, "was".data, "were".data, "be".data, "been".data, "being".data,
   "and".data, "or".data, "not".data, "but".data, "if".data, "the".data, "a".data, "an".data,
   "in".data, "on".data, "at".data, "to".data, "for".data, "of".data, "with".data, "by".data,
   "as".data, "it".data, "this".data, "that".data, "from".data, "all".data, "can".data,
   "will".data, "would".data, "should".data, "could".data, "may".data, "might".data,
   "do".data, "does".data, "did".data, "have".data, "has".data, "had".data,
   "get".data, "set".data, "use".data, "make".data, "take".data, "go".data, "see".data,
   "new".data, "old".data, "first".data, "last".data, "next".data, "one".data, "two".data,
   "when".data, "where".data, "why".data, "how".data, "what".data, "which".data,
   "some".data, "any".data, "many".data, "much".data, "few".data, "more".data, "most".data,
   "only".data, "just".data, "also".data, "even".data, "well".data, "way".data, "back".data,
   "time".data, "year".data, "work".data, "part".data, "case".data, "over".data, "than".data,
   "able".data, "data".data, "into".data, "then".data, "them".data, "each".data, "such".data]

/-- Does `run` belong to `[a-z][a-z0-9]*(?:_[a-z0-9]+)+` in full?  Since
`run` is a maximal run over `[a-z0-9_]` beginning with a lowercase letter,
this holds exactly when it contains an underscore, contains no doubled
underscore and does not end with one. -/
def snake_shape (run : List Char) : Bool :=
  run.contains '_' && !(containsSub "__".data run) && run.getLast? ≠ some '_'

/-- Matcher for `(?<![*])\b([a-z][a-z0-9]*(?:_[a-z0-9]+)+)\b(?![*])`
replaced by `*\1*`.  The word boundary before the match means the previous
character is absent or a non-word character; the boundary plus negative
look-ahead after it mean the next character is absent, or non-word and not
`*`.  Any shorter match inside the maximal `[a-z0-9_]` run would place a
word character right after the match, so the regex matches exactly the full
run (when it has snake shape). -/
def snake_matcher : Matcher := fun prev s =>
  let prevOK : Bool := match prev with
    | none => true
    | some p => !(isWordChar p) && p != '*'
  match s with
  | c :: _ =>
    if prevOK && isAsciiLower c then
      let run := s.takeWhile (fun x => isAsciiLower x ∨ isPyDigit x ∨ x = '_')
      let afterOK : Bool := match (s.drop run.length).head? with
        | none => true
        | some nx => !(isWordChar nx) && nx != '*'
      if snake_shape run && afterOK then some (run.length, '*' :: run ++ ['*'])
      else none
    else none
  | [] => none

/-- Matcher for `(?<![-*])\b([a-z]{4,})\b(?![*])` with the stoplist check
in the replacement function: a stoplisted word is returned unchanged (but
still consumed), any other word is wrapped in `*`. -/
def tech_matcher : Matcher := fun prev s =>
  let prevOK : Bool := match prev with
    | none => true
    | some p => !(isWordChar p) && p != '*' && p != '-'
  if prevOK then
    let run := s.takeWhile isAsciiLower
    if run.length < 4 then none
    else
      let afterOK : Bool := match (s.drop run.length).head? with
        | none => true
        | some nx => !(isWordChar nx) && nx != '*'
      if afterOK then
        if common_words.contains run then some (run.length, run)
        else some (run.length, '*' :: run ++ ['*'])
      else none
  else none

/-- `wrap_technical_terms_in_italic`. -/
def wrap_technical_terms_in_italic (l : List Char) : List Char :=
  if startsWithL "```".data (pyStrip l) then l
  else if startsWithL "|".data (pyStrip l) ∨ countChar '|' l > 2 then l
  else if startsWithL "#".data (pyStrip l) ∨ pyStrip l = "---".data then l
  else if isListLine l then l
  else runSub tech_matcher (runSub snake_matcher l)

/-- Matcher for `(!\[[^\]]+\]\()([^\)]+)(\))` whose replacement wraps the
parts before and after the path through `wrap_technical_terms_in_italic`
while keeping the path itself untouched. -/
def image_span_matcher : Matcher := fun _ s =>
  match s with
  | '!' :: '[' :: r0 =>
    let alt := r0.takeWhile (· ≠ ']')
    if alt.isEmpty then none
    else
      (match r0.dropWhile (· ≠ ']') with
       | ']' :: '(' :: r2 =>
         let path := r2.takeWhile (· ≠ ')')
         if path.isEmpty then none
         else
           (match r2.dropWhile (· ≠ ')') with
            | ')' :: _ =>
              some (2 + alt.length + 2 + path.length + 1,
                wrap_technical_terms_in_italic ("![".data ++ alt ++ "](".data) ++
                  path ++ wrap_technical_terms_in_italic [')'])
            | _ => none)
       | _ => none)
  | _ => none

/-- `wrap_technical_terms_in_italic_except_images`. -/
def wrap_technical_terms_in_italic_except_images (l : List Char) : List Char :=
  if existsMatch image_span_matcher none l then runSub image_span_matcher l
  else wrap_technical_terms_in_italic l

/-- Matcher for `(?<!\*)\*(?!\*)([^*]+)\*(?!\*)` replaced by `\1`. -/
def italic_matcher : Matcher := fun prev s =>
  match s with
  | c :: r1 =>
    if c = '*' ∧ prev ≠ some '*' then
      let seg := r1.takeWhile (· ≠ '*')
      if seg.isEmpty then none
      else
        (match r1.dropWhile (· ≠ '*') with
         | '*' :: r3 =>
           if r3.head? = some '*' then none
           else some (2 + seg.length, seg)
         | _ => none)
    else none
  | [] => none

/-- `remove_italic_in_lists` (numbered list items only). -/
def remove_italic_in_lists (l : List Char) : List Char :=
  if isNumberedLine l then runSub italic_matcher l else l

/-- The alternatives of the reveal-label pattern. -/
def show_answer_words : List (List Char) :=
  ["ответ".data, "решение".data, "результат".data]

/-- `re.match(r'^[👁️\s]*Показать\s+(ответ|решение|результат)', clean, re.I)`.
The character class holds U+1F441, U+FE0F and whitespace. -/
def show_answer_match (clean : List Char) : Bool :=
  let rest := clean.dropWhile (fun c => c.toNat = 0x1F441 ∨ c.toNat = 0xFE0F ∨ isPySpace c)
  if startsWithCI "показать".data rest then
    let r2 := rest.drop 8
    if (r2.takeWhile isPySpace).isEmpty then false
    else show_answer_words.any (fun w => startsWithCI w (r2.dropWhile isPySpace))
  else false

/-- `remove_show_answer_headers` : `none` signals removal of the line;
empty and whitespace-only lines are always kept. -/
def remove_show_answer_headers (l : List Char) : Option (List Char) :=
  let stripped := pyStrip l
  if stripped.isEmpty then some l
  else if show_answer_match (runSub bold_pair_matcher stripped) then none
  else some l

/-!
## The document-level pre-passes
-/

/-- Matcher for `re.sub(r'<details>', '', line, flags=re.IGNORECASE)`. -/
def details_tag_matcher : Matcher := fun _ s =>
  if startsWithCI "<details>".data s then some (9, []) else none

/-- One line of `process_details_blocks` : lines holding `<summary>`,
`</summary>` or `</details>` are dropped; lines holding `<details>` keep
their other content unless blank after tag removal; everything else passes
through.  (The `in_details`/`in_summary`/`summary_content` variables of the
source are written but never read for output.) -/
def process_details_line (l : List Char) : Option (List Char) :=
  let low := l.map pyLower
  if containsSub "<details>".data low then
    let clean := runSub details_tag_matcher l
    if (pyStrip clean).isEmpty then none else some clean
  else if containsSub "<summary>".data low then none
  else if containsSub "</summary>".data low then none
  else if containsSub "</details>".data low then none
  else some l

def process_details_blocks (lines : List (List Char)) : List (List Char) :=
  lines.filterMap process_details_line

/-- The state of `unify_nested_list_types` : parent marker type
(`some true` = numbered, `some false` = bulleted, `none` = no parent),
parent indentation and the nested ordinal counter. -/
structure UnifyState where
  ptype : Option Bool
  pindent : Nat
  counter : Nat
deriving DecidableEq

/-- `re.match(r'^\d+\.\s+', stripped)`. -/
def is_num_marker (stripped : List Char) : Bool :=
  let ds := stripped.takeWhile isPyDigit
  if ds.isEmpty then false
  else match stripped.dropWhile isPyDigit with
    | '.' :: r => !(r.takeWhile isPySpace).isEmpty
    | _ => false

/-- `re.match(r'^-\s+', stripped)`. -/
def is_bul_marker (stripped : List Char) : Bool :=
  match stripped with
  | '-' :: r => !(r.takeWhile isPySpace).isEmpty
  | _ => false

/-- The marker-stripping of the nested branch:
`re.sub(r'^\d+\.\s+', '', stripped)` or `re.sub(r'^-\s+', '', stripped)`. -/
def nested_item_text (stripped : List Char) : List Char :=
  if is_num_marker stripped then
    ((stripped.dropWhile isPyDigit).drop 1).dropWhile isPySpace
  else if is_bul_marker stripped then
    (stripped.drop 1).dropWhile isPySpace
  else stripped

/-- One step of `unify_nested_list_types`, returning the new state and the
emitted line. -/
def unify_step (st : UnifyState) (l : List Char) : UnifyState × List Char :=
  let stripped := pyLstrip l
  let ci := l.length - stripped.length
  let isNum := is_num_marker stripped
  let isBul := is_bul_marker stripped
  if !isNum && !isBul then
    (if ci ≤ st.pindent then ⟨none, 0, 1⟩ else st, l)
  else if ci = 0 ∨ ci ≤ st.pindent then
    (⟨some isNum, ci, 1⟩, l)
  else match st.ptype with
    | none => (st, l)
    | some true =>
      (⟨some true, st.pindent, st.counter + 1⟩,
       spacesN ci ++ natToStr st.counter ++ '.' :: ' ' :: nested_item_text stripped)
    | some false =>
      (⟨some false, st.pindent, st.counter⟩,
       spacesN ci ++ '-' :: ' ' :: nested_item_text stripped)

def unify_go : UnifyState → List (List Char) → List (List Char)
  | _, [] => []
  | st, l :: rest =>
    let p := unify_step st l
    p.2 :: unify_go p.1 rest

def unify_nested_list_types (lines : List (List Char)) : List (List Char) :=
  unify_go ⟨none, 0, 1⟩ lines

/-!
## The rewrite pipeline (`simplify_markdown_file`)
-/

/-- The per-line rule chain of `simplify_markdown_file`, in source order,
after the reveal-label rule has kept the line. -/
def rule_chain (l : List Char) : List Char :=
  remove_italic_in_lists
    (wrap_technical_terms_in_italic_except_images
      (remove_inline_code_everywhere
        (quote_operators_in_lists
          (convert_markdown_links
            (remove_bare_urls
              (remove_blockquotes
                (remove_html_tags
                  (fix_emoji_at_list_start
                    (remove_code_in_lists
                      (remove_bold_in_lists
                        (fix_code_with_dash_in_lists
                          (fix_bold_colon_in_lists
                            (remove_checklists
                              (normalize_headers l))))))))))))))

/-- One iteration of the per-line loop: fence toggling, fenced pass-through,
then reveal-label removal and the rule chain. -/
def simplify_step (inCode : Bool) (l : List Char) : Bool × Option (List Char) :=
  if startsWithL "```".data (pyStrip l) then (!inCode, some l)
  else if inCode then (inCode, some l)
  else match remove_show_answer_headers l with
    | none => (inCode, none)
    | some l2 => (inCode, some (rule_chain l2))

def simplify_go : Bool → List (List Char) → List (List Char)
  | _, [] => []
  | b, l :: rest =>
    match simplify_step b l with
    | (b2, some out) => out :: simplify_go b2 rest
    | (b2, none) => simplify_go b2 rest

/-- `simplify_markdown_file` on an already-read list of lines (trailing
newlines stripped): the two pre-passes, then the per-line loop. -/
def simplify_lines (lines : List (List Char)) : List (List Char) :=
  simplify_go false (unify_nested_list_types (process_details_blocks lines))

/-- Text-mode `readlines()` followed by `rstrip('\n\r')` on each line. -/
def read_lines (raw : List Char) : List (List Char) :=
  (splitKeep (univNL raw)).map rstripNL

/-- The full `simplify_markdown_file`: read, transform, join with `'\n'`. -/
def simplify_output (raw : String) : String :=
  String.mk (joinLF (simplify_lines (read_lines raw.data)))

/-!
## The section splitter (`split_markdown.py`)
-/

/-- The splitter's fence test: `line.strip().startswith('```') or
line.strip().startswith('~~~')`. -/
def is_split_fence (l : List Char) : Bool :=
  startsWithL "```".data (pyStrip l) || startsWithL "~~~".data (pyStrip l)

/-- `line.strip().startswith('## ') and not line.strip().startswith('### ')`. -/
def is_h2_line (l : List Char) : Bool :=
  startsWithL "## ".data (pyStrip l) && !startsWithL "### ".data (pyStrip l)

structure SplitState where
  sections : List (List (List Char))
  current : List (List Char)
  in_code : Bool
deriving DecidableEq

/-- `current_section and any(l.strip() for l in current_section)`. -/
def section_nonblank (sec : List (List Char)) : Bool :=
  sec.any (fun l => !(pyStrip l).isEmpty)

/-- One line of `MarkdownSplitter.parse_markdown_file`. -/
def split_step (st : SplitState) (l : List Char) : SplitState :=
  if is_split_fence l then ⟨st.sections, st.current ++ [l], !st.in_code⟩
  else if st.in_code then ⟨st.sections, st.current ++ [l], st.in_code⟩
  else if is_h2_line l then
    if section_nonblank st.current then ⟨st.sections ++ [st.current], [l], st.in_code⟩
    else ⟨st.sections, [l], st.in_code⟩
  else ⟨st.sections, st.current ++ [l], st.in_code⟩

/-- `MarkdownSplitter.parse_markdown_file` on the read lines (the lines keep
their trailing newlines, as `readlines()` returns them). -/
def parse_markdown_file (lines : List (List Char)) : List (List (List Char)) :=
  let fin := lines.foldl split_step ⟨[], [], false⟩
  if section_nonblank fin.current then fin.sections ++ [fin.current]
  else fin.sections

/-- `Path(filename).stem` (for ordinary dotted names). -/
def pyStem (name : List Char) : List Char :=
  if name.contains '.' then ((name.reverse.dropWhile (· ≠ '.')).drop 1).reverse
  else name

/-- `MarkdownSplitter.extract_file_prefix`. -/
def extract_file_prefix (filename : List Char) : List Char :=
  let stem := pyStem filename
  let ds := stem.takeWhile isPyDigit
  if ds.isEmpty then stem.take 2 else ds

/-- `f"{idx:02d}"`. -/
def pad2 (n : Nat) : List Char :=
  if n < 10 then '0' :: natToStr n else natToStr n

/-- The file names produced by `save_sections`
(`f"{file_prefix}_{idx:02d}.md"`, `idx` starting at 1). -/
def section_filenames (filename : List Char) (sections : List (List (List Char))) :
    List (List Char) :=
  (List.range sections.length).map
    (fun i => extract_file_prefix filename ++ '_' :: pad2 (i + 1) ++ ".md".data)

/-- `'../' * levels_up`. -/
def repeatSeg : Nat → List Char
  | 0 => []
  | n + 1 => "../".data ++ repeatSeg n

/-- The `replace_link` function inside `adjust_relative_path` : `orig` is
the whole matched text (`match.group(0)`). -/
def split_replace_link (levels : Nat) (bang : Bool) (alt path orig : List Char) :
    List Char :=
  let old_path := pyStrip path
  if startsWithL "http://".data old_path ∨ startsWithL "https://".data old_path then orig
  else if startsWithL "/".data old_path then orig
  else if bang || is_image_url old_path then
    if startsWithL "./".data old_path then
      (if bang then "![".data else "[".data) ++ alt ++ "](".data ++
        repeatSeg levels ++ old_path.drop 2 ++ [')']
    else if startsWithL "../".data old_path then orig
    else
      (if bang then "![".data else "[".data) ++ alt ++ "](".data ++
        repeatSeg levels ++ old_path ++ [')']
  else orig

/-- Matcher for the splitter's `(!?)\[([^\]]*)\]\(([^\)]+)\)`. -/
def split_link_matcher (levels : Nat) : Matcher := fun _ s =>
  match link_parse true s with
  | none => none
  | some (bang, alt, path, total) =>
    some (total, split_replace_link levels bang alt path (s.take total))

/-- `MarkdownSplitter.adjust_relative_path`. -/
def adjust_relative_path (l : List Char) (levels : Nat) : List Char :=
  if levels = 0 then l else runSub (split_link_matcher levels) l

/-- The contents written by `save_sections` (each section's lines, path
adjusted, joined with `''.join`). -/
def section_contents (lines : List (List Char)) (levels : Nat) : List (List Char) :=
  (parse_markdown_file lines).map
    (fun sec => joinAll (sec.map (fun l => adjust_relative_path l levels)))

/-- The splitter's text-mode read (`readlines()` keeps the delimiters). -/
def split_read_lines (raw : List Char) : List (List Char) :=
  splitKeep (univNL raw)

/-!
## Theorems
-/

theorem takeWhile_append_stop {α : Type} (p : α → Bool) (xs : List α) (y : α)
    (ys : List α) (hx : ∀ a ∈ xs, p a = true) (hy : p y = false) :
    (xs ++ y :: ys).takeWhile p = xs := by
  induction xs with
  | nil => simp [List.takeWhile_cons, hy]
  | cons a as ih =>
    have ha : p a = true := hx a (by simp)
    simp only [List.cons_append, List.takeWhile_cons, ha, if_true]
    rw [ih (fun b hb => hx b (by simp [hb]))]

theorem dropWhile_append_stop {α : Type} (p : α → Bool) (xs : List α) (y : α)
    (ys : List α) (hx : ∀ a ∈ xs, p a = true) (hy : p y = false) :
    (xs ++ y :: ys).dropWhile p = y :: ys := by
  induction xs with
  | nil => simp [List.dropWhile_cons, hy]
  | cons a as ih =>
    have ha : p a = true := hx a (by simp)
    simp only [List.cons_append, List.dropWhile_cons, ha, if_true]
    exact ih (fun b hb => hx b (by simp [hb]))

theorem dropWhile_all_false {α : Type} (p : α → Bool) (l : List α)
    (h : ∀ a ∈ l, p a = false) : l.dropWhile p = l := by
  induction l with
  | nil => rfl
  | cons a as ih =>
    have ha : p a = false := h a (by simp)
    simp only [List.dropWhile_cons, ha, Bool.false_eq_true, if_false]

theorem pyStrip_eq_self (l : List Char) (h : ∀ a ∈ l, isPySpace a = false) :
    pyStrip l = l := by
  unfold pyStrip pyLstrip pyRstrip
  rw [dropWhile_all_false _ _ h,
      dropWhile_all_false _ _ (fun a ha => h a (List.mem_reverse.mp ha)),
      List.reverse_reverse]

theorem scanSub_nil (m : Matcher) (fuel : Nat) (prev : Option Char) :
    scanSub m fuel prev [] = [] := by
  cases fuel <;> rfl

/-- When the matcher consumes the whole input at position zero, `runSub`
returns exactly the replacement. -/
theorem runSub_full (m : Matcher) (l repl : List Char) (hl : l ≠ [])
    (hm : m none l = some (l.length, repl)) : runSub m l = repl := by
  obtain ⟨c, cs, rfl⟩ := List.exists_cons_of_ne_nil hl
  show scanSub m (cs.length + 1) none (c :: cs) = repl
  rw [scanSub, hm]
  simp only [List.length_cons, Nat.succ_ne_zero, if_false]
  rw [List.drop_of_length_le (by simp), scanSub_nil, List.append_nil]

/-!
### Forbidden-character preservation

The newline-normalisation claims need that no transformation ever introduces
a carriage return (resp. a line feed) into a line.  The lemmas below track,
for an arbitrary character `c` not among a rule's replacement constants,
that `c ∉ line` is preserved.
-/

theorem avoid_takeWhile {c : Char} {p : Char → Bool} {l : List Char}
    (h : c ∉ l) : c ∉ l.takeWhile p :=
  fun hc => h ((List.takeWhile_sublist p).subset hc)

theorem avoid_dropWhile {c : Char} {p : Char → Bool} {l : List Char}
    (h : c ∉ l) : c ∉ l.dropWhile p :=
  fun hc => h ((List.dropWhile_sublist p).subset hc)

theorem avoid_take {c : Char} (n : Nat) {l : List Char} (h : c ∉ l) : c ∉ l.take n :=
  fun hc => h ((List.take_sublist n l).subset hc)

theorem avoid_drop {c : Char} (n : Nat) {l : List Char} (h : c ∉ l) : c ∉ l.drop n :=
  fun hc => h ((List.drop_sublist n l).subset hc)

theorem avoid_reverse {c : Char} {l : List Char} (h : c ∉ l) : c ∉ l.reverse :=
  fun hc => h (List.mem_reverse.mp hc)

theorem avoid_append {c : Char} {l1 l2 : List Char} (h1 : c ∉ l1) (h2 : c ∉ l2) :
    c ∉ l1 ++ l2 :=
  fun hc => (List.mem_append.mp hc).elim h1 h2

theorem avoid_cons {c a : Char} {l : List Char} (hne : c ≠ a) (h : c ∉ l) :
    c ∉ a :: l :=
  fun hc => (List.mem_cons.mp hc).elim hne h

theorem avoid_tail {c a : Char} {l : List Char} (h : c ∉ a :: l) : c ∉ l :=
  fun hc => h (List.mem_cons_of_mem a hc)

theorem avoid_head {c a : Char} {l : List Char} (h : c ∉ a :: l) : c ≠ a :=
  fun hc => h (hc ▸ List.mem_cons_self a l)

theorem avoid_pyLstrip {c : Char} {l : List Char} (h : c ∉ l) : c ∉ pyLstrip l :=
  avoid_dropWhile h

theorem avoid_pyStrip {c : Char} {l : List Char} (h : c ∉ l) : c ∉ pyStrip l :=
  avoid_reverse (avoid_dropWhile (avoid_reverse (avoid_dropWhile h)))

theorem avoid_rstripNL {c : Char} {l : List Char} (h : c ∉ l) : c ∉ rstripNL l :=
  avoid_reverse (avoid_dropWhile (avoid_reverse h))

theorem avoid_spacesN {c : Char} (hc : c ≠ ' ') : ∀ n, c ∉ spacesN n := by
  intro n
  induction n with
  | zero => simp [spacesN]
  | succ k ih => exact avoid_cons hc ih

theorem digit_char_mem (d : Nat) (hd : d < 10) :
    Char.ofNat (48 + d) ∈ "0123456789".data := by
  interval_cases d <;> decide

theorem avoid_natToStrAux {c : Char} (hc : c ∉ "0123456789".data) :
    ∀ fuel n, c ∉ natToStrAux fuel n := by
  intro fuel
  induction fuel with
  | zero => intro n; simp [natToStrAux]
  | succ f ih =>
    intro n
    rw [natToStrAux]
    by_cases hn : n < 10
    · rw [if_pos hn]
      exact avoid_cons (fun he => hc (he ▸ digit_char_mem n hn)) (by simp)
    · rw [if_neg hn]
      exact avoid_append (ih (n / 10))
        (avoid_cons (fun he => hc (he ▸ digit_char_mem (n % 10) (Nat.mod_lt n (by omega)))) (by simp))

theorem avoid_natToStr {c : Char} (hc : c ∉ "0123456789".data) (n : Nat) :
    c ∉ natToStr n :=
  avoid_natToStrAux hc _ n

theorem avoid_repeatSeg {c : Char} (hc : c ∉ "../".data) : ∀ n, c ∉ repeatSeg n := by
  intro n
  induction n with
  | zero => simp [repeatSeg]
  | succ k ih => exact avoid_append hc ih

/-- The generic preservation lemma for the substitution engine: if every
replacement the matcher can produce avoids `c` whenever its input suffix
does, then the whole scan avoids `c`. -/
theorem avoid_scanSub (c : Char) (m : Matcher)
    (hm : ∀ prev s n repl, m prev s = some (n, repl) → c ∉ s → c ∉ repl) :
    ∀ fuel prev l, c ∉ l → c ∉ scanSub m fuel prev l := by
  intro fuel
  induction fuel with
  | zero => intro prev l h; exact h
  | succ f ih =>
    intro prev l h
    cases l with
    | nil => rw [scanSub_nil]; exact h
    | cons a cs =>
      have htail : c ∉ cs := avoid_tail h
      have hhead : c ≠ a := avoid_head h
      rw [scanSub]
      cases hmm : m prev (a :: cs) with
      | none => exact avoid_cons hhead (ih (some a) cs htail)
      | some pr =>
        obtain ⟨n, repl⟩ := pr
        show c ∉ if n = 0 then a :: scanSub m f (some a) cs
          else repl ++ scanSub m f (List.take n (a :: cs)).getLast? (List.drop n (a :: cs))
        by_cases hn : n = 0
        · rw [if_pos hn]
          exact avoid_cons hhead (ih (some a) cs htail)
        · rw [if_neg hn]
          exact avoid_append (hm prev (a :: cs) n repl hmm h) (ih _ _ (avoid_drop n h))

theorem avoid_runSub {c : Char} (m : Matcher)
    (hm : ∀ prev s n repl, m prev s = some (n, repl) → c ∉ s → c ∉ repl)
    {l : List Char} (h : c ∉ l) : c ∉ runSub m l :=
  avoid_scanSub c m hm l.length none l h

theorem avoid_dropLast {c : Char} {l : List Char} (h : c ∉ l) : c ∉ l.dropLast :=
  fun hc => h ((List.dropLast_sublist l).subset hc)

theorem getLastD_mem : ∀ {l : List Char}, l ≠ [] → ∀ d : Char, l.getLastD d ∈ l := by
  intro l
  induction l with
  | nil => intro hl; exact absurd rfl hl
  | cons a t ih =>
    intro _ d
    rw [List.getLastD_cons]
    cases t with
    | nil => simp [List.getLastD]
    | cons b t2 => exact List.mem_cons_of_mem a (ih (by simp) a)

theorem avoid_tailSpacePlus {c : Char} {l g : List Char}
    (hm : tailSpacePlus l = some g) (h : c ∉ l) : c ∉ g := by
  unfold tailSpacePlus at hm
  dsimp only [] at hm
  split at hm
  · exact Option.noConfusion hm
  · split at hm
    · split at hm
      · rename_i hlen
        injection hm with h1
        subst h1
        intro hc
        rcases List.mem_singleton.mp hc with rfl
        exact h (getLastD_mem (by intro he; subst he; simp at hlen) ' ')
      · exact Option.noConfusion hm
    · injection hm with h1
      subst h1
      exact avoid_dropWhile h

theorem avoid_tailSpaceStar {c : Char} {l g : List Char}
    (hm : tailSpaceStar l = some g) (h : c ∉ l) : c ∉ g := by
  unfold tailSpaceStar at hm
  dsimp only [] at hm
  split at hm
  · split at hm
    · exact Option.noConfusion hm
    · rename_i hlne
      injection hm with h1
      subst h1
      intro hc
      rcases List.mem_singleton.mp hc with rfl
      exact h (getLastD_mem (by
        intro he
        subst he
        simp at hlne) ' ')
  · injection hm with h1
    subst h1
    exact avoid_dropWhile h

theorem avoid_parseListMarker {c : Char} {l g1 rest : List Char}
    (hm : parseListMarker l = some (g1, rest)) (h : c ∉ l) :
    c ∉ g1 ∧ c ∉ rest := by
  unfold parseListMarker at hm
  dsimp only [] at hm
  split at hm
  · split at hm
    · exact Option.noConfusion hm
    · rename_i r2 heq hws
      injection hm with h1
      injection h1 with h2 h3
      subst h2 h3
      have hr2 : c ∉ '-' :: r2 := heq ▸ avoid_dropWhile h
      exact ⟨avoid_append (avoid_takeWhile h)
          (avoid_cons (avoid_head hr2) (avoid_takeWhile (avoid_tail hr2))),
        avoid_dropWhile (avoid_tail hr2)⟩
  · split at hm
    · exact Option.noConfusion hm
    · split at hm
      · rename_i r3 heq2
        split at hm
        · exact Option.noConfusion hm
        · injection hm with h1
          injection h1 with h2 h3
          subst h2 h3
          have hr1 : c ∉ List.dropWhile isPySpace l := avoid_dropWhile h
          have hr3 : c ∉ '.' :: r3 := heq2 ▸ avoid_dropWhile hr1
          exact ⟨avoid_append (avoid_append (avoid_takeWhile h) (avoid_takeWhile hr1))
              (avoid_cons (avoid_head hr3) (avoid_takeWhile (avoid_tail hr3))),
            avoid_dropWhile (avoid_tail hr3)⟩
      · exact Option.noConfusion hm

theorem avoid_strip_protocol {c : Char} {url : List Char} (h : c ∉ url) :
    c ∉ strip_protocol url := by
  unfold strip_protocol
  split
  · exact avoid_drop 8 h
  · split
    · exact avoid_drop 7 h
    · exact h

theorem avoid_link_parse {c : Char} {altStar bang : Bool}
    {s alt url : List Char} {total : Nat}
    (hm : link_parse altStar s = some (bang, alt, url, total)) (h : c ∉ s) :
    c ∉ alt ∧ c ∉ url := by
  have core : ∀ (bg : Bool) (r0 : List Char),
      link_parse_core altStar bg r0 = some (bang, alt, url, total) → c ∉ r0 →
      c ∉ alt ∧ c ∉ url := by
    intro bg r0 hc0 hr0
    unfold link_parse_core at hc0
    dsimp only [] at hc0
    split at hc0
    · exact Option.noConfusion hc0
    · split at hc0
      · rename_i r2 heq
        split at hc0
        · exact Option.noConfusion hc0
        · split at hc0
          · injection hc0 with h1
            injection h1 with h2 h3
            injection h3 with h4 h5
            injection h5 with h6 h7
            subst h4 h6
            have hr2 : c ∉ ']' :: '(' :: r2 := heq ▸ avoid_dropWhile hr0
            exact ⟨avoid_takeWhile hr0, avoid_takeWhile (avoid_tail (avoid_tail hr2))⟩
          · exact Option.noConfusion hc0
      · exact Option.noConfusion hc0
  unfold link_parse at hm
  split at hm
  · exact core true _ hm (avoid_tail (avoid_tail h))
  · exact core false _ hm (avoid_tail h)
  · exact Option.noConfusion hm

theorem avoid_op_sep_parse {c : Char} {r sep : List Char}
    (hm : op_sep_parse r = some sep) (h : c ∉ r) : c ∉ sep := by
  unfold op_sep_parse at hm
  dsimp only [] at hm
  split at hm
  · rename_i r2 heq
    injection hm with h1
    subst h1
    have hr2 : c ∉ '—' :: r2 := heq ▸ avoid_dropWhile h
    exact avoid_append (avoid_takeWhile h)
      (avoid_cons (avoid_head hr2) (avoid_takeWhile (avoid_tail hr2)))
  · split at hm
    · exact Option.noConfusion hm
    · injection hm with h1
      subst h1
      exact avoid_takeWhile h

theorem avoid_bold_pair_matcher (c : Char) :
    ∀ prev s n repl, bold_pair_matcher prev s = some (n, repl) → c ∉ s → c ∉ repl := by
  intro prev s n repl hm hs
  unfold bold_pair_matcher at hm
  dsimp only [] at hm
  split at hm
  case _ r2 =>
    split at hm
    case _ => exact Option.noConfusion hm
    case _ =>
      split at hm
      case _ =>
        injection hm with h1
        injection h1 with h2 h3
        subst h3
        exact avoid_takeWhile (avoid_tail (avoid_tail hs))
      case _ => exact Option.noConfusion hm
  case _ => exact Option.noConfusion hm

theorem avoid_backtick_strip_matcher (c : Char) :
    ∀ prev s n repl, backtick_strip_matcher prev s = some (n, repl) → c ∉ s → c ∉ repl := by
  intro prev s n repl hm hs
  unfold backtick_strip_matcher at hm
  dsimp only [] at hm
  split at hm
  case _ c0 r2 =>
    split at hm
    case _ =>
      split at hm
      case _ => exact Option.noConfusion hm
      case _ =>
        split at hm
        case _ => exact Option.noConfusion hm
        case _ =>
          injection hm with h1
          injection h1 with h2 h3
          subst h3
          exact avoid_takeWhile (avoid_tail hs)
    case _ => exact Option.noConfusion hm
  case _ => exact Option.noConfusion hm

theorem avoid_backtick_italic_matcher (c : Char) (hstar : c ≠ '*') :
    ∀ prev s n repl, backtick_italic_matcher prev s = some (n, repl) → c ∉ s → c ∉ repl := by
  intro prev s n repl hm hs
  unfold backtick_italic_matcher at hm
  dsimp only [] at hm
  split at hm
  case _ c0 r2 =>
    split at hm
    case _ =>
      split at hm
      case _ => exact Option.noConfusion hm
      case _ =>
        split at hm
        case _ => exact Option.noConfusion hm
        case _ =>
          injection hm with h1
          injection h1 with h2 h3
          subst h3
          exact avoid_cons hstar
            (avoid_append (avoid_takeWhile (avoid_tail hs)) (avoid_cons hstar (by simp)))
    case _ => exact Option.noConfusion hm
  case _ => exact Option.noConfusion hm

theorem avoid_details_tag_matcher (c : Char) :
    ∀ prev s n repl, details_tag_matcher prev s = some (n, repl) → c ∉ s → c ∉ repl := by
  intro prev s n repl hm _
  unfold details_tag_matcher at hm
  split at hm
  · injection hm with h1
    injection h1 with h2 h3
    subst h3
    simp
  · exact Option.noConfusion hm

theorem avoid_html_tag_matcher (c : Char) (openTag closeTag wrapL wrapR : List Char)
    (hL : c ∉ wrapL) (hR : c ∉ wrapR) :
    ∀ prev s n repl, html_tag_matcher openTag closeTag wrapL wrapR prev s = some (n, repl) →
      c ∉ s → c ∉ repl := by
  intro prev s n repl hm hs
  unfold html_tag_matcher at hm
  dsimp only [] at hm
  split at hm
  · split at hm
    · exact Option.noConfusion hm
    · split at hm
      · injection hm with h1
        injection h1 with h2 h3
        subst h3
        exact avoid_append (avoid_append hL (avoid_takeWhile (avoid_drop _ hs))) hR
      · exact Option.noConfusion hm
  · exact Option.noConfusion hm

theorem avoid_html_generic_matcher (c : Char) :
    ∀ prev s n repl, html_generic_matcher prev s = some (n, repl) → c ∉ s → c ∉ repl := by
  intro prev s n repl hm hs
  unfold html_generic_matcher at hm
  dsimp only [] at hm
  split at hm
  case _ r1 =>
    split at hm
    case _ => exact Option.noConfusion hm
    case _ =>
      split at hm
      case _ r2 heq =>
        split at hm
        case _ => exact Option.noConfusion hm
        case _ =>
          split at hm
          case _ r3 heq2 =>
            split at hm
            case _ =>
              split at hm
              case _ =>
                injection hm with h1
                injection h1 with h2 h3
                subst h3
                have hr1 : c ∉ r1 := avoid_tail hs
                have hr2 : c ∉ '>' :: r2 := heq ▸ avoid_drop _ hr1
                exact avoid_takeWhile (avoid_tail hr2)
              case _ => exact Option.noConfusion hm
            case _ => exact Option.noConfusion hm
          case _ => exact Option.noConfusion hm
      case _ => exact Option.noConfusion hm
  case _ => exact Option.noConfusion hm

theorem avoid_bare_url_matcher (c : Char) :
    ∀ prev s n repl, bare_url_matcher prev s = some (n, repl) → c ∉ s → c ∉ repl := by
  intro prev s n repl hm hs
  unfold bare_url_matcher at hm
  dsimp only [] at hm
  split at hm
  · split at hm
    · exact Option.noConfusion hm
    · injection hm with h1
      injection h1 with h2 h3
      subst h3
      exact avoid_takeWhile (avoid_drop 8 hs)
  · split at hm
    · split at hm
      · exact Option.noConfusion hm
      · injection hm with h1
        injection h1 with h2 h3
        subst h3
        exact avoid_takeWhile (avoid_drop 7 hs)
    · exact Option.noConfusion hm

theorem avoid_convert_link_matcher (c : Char) (hK : c ∉ "* ()".data) :
    ∀ prev s n repl, convert_link_matcher prev s = some (n, repl) → c ∉ s → c ∉ repl := by
  intro prev s n repl hm hs
  unfold convert_link_matcher at hm
  split at hm
  case _ => exact Option.noConfusion hm
  case _ bang text url total heq =>
    have hparts := avoid_link_parse heq hs
    split at hm
    · injection hm with h1
      injection h1 with h2 h3
      subst h3
      exact avoid_take _ hs
    · injection hm with h1
      injection h1 with h2 h3
      subst h3
      exact avoid_append (avoid_append
          (avoid_cons (fun he => hK (by rw [he]; decide)) hparts.1)
          (avoid_cons (fun he => hK (by rw [he]; decide))
            (avoid_cons (fun he => hK (by rw [he]; decide))
              (avoid_strip_protocol hparts.2))))
        (fun hc => by
          simp only [List.mem_cons, List.not_mem_nil, or_false] at hc
          rcases hc with rfl | rfl
          · exact hK (by decide)
          · exact hK (by decide))

theorem avoid_op_matcher (c : Char) (op : List Char) (hop : c ∉ op) (hq : c ≠ '"') :
    ∀ prev s n repl, op_matcher op prev s = some (n, repl) → c ∉ s → c ∉ repl := by
  intro prev s n repl hm hs
  unfold op_matcher at hm
  split at hm
  case _ c0 r1 =>
    split at hm
    · split at hm
      case _ sep hsep =>
        injection hm with h1
        injection h1 with h2 h3
        subst h3
        exact avoid_cons (avoid_head hs)
          (avoid_cons hq (avoid_append hop
            (avoid_cons hq (avoid_op_sep_parse hsep (avoid_drop _ (avoid_tail hs))))))
      case _ => exact Option.noConfusion hm
    · split at hm
      · split at hm
        case _ sep hsep =>
          injection hm with h1
          injection h1 with h2 h3
          subst h3
          exact avoid_cons hq (avoid_append hop
            (avoid_cons hq (avoid_op_sep_parse hsep (avoid_drop _ hs))))
        case _ => exact Option.noConfusion hm
      · exact Option.noConfusion hm
  case _ => exact Option.noConfusion hm

theorem avoid_snake_matcher (c : Char) (hstar : c ≠ '*') :
    ∀ prev s n repl, snake_matcher prev s = some (n, repl) → c ∉ s → c ∉ repl := by
  intro prev s n repl hm hs
  unfold snake_matcher at hm
  dsimp only [] at hm
  split at hm
  case _ =>
    split at hm
    · split at hm
      · injection hm with h1
        injection h1 with h2 h3
        subst h3
        exact avoid_cons hstar (avoid_append (avoid_takeWhile hs) (avoid_cons hstar (by simp)))
      · exact Option.noConfusion hm
    · exact Option.noConfusion hm
  case _ => exact Option.noConfusion hm

theorem avoid_tech_matcher (c : Char) (hstar : c ≠ '*') :
    ∀ prev s n repl, tech_matcher prev s = some (n, repl) → c ∉ s → c ∉ repl := by
  intro prev s n repl hm hs
  unfold tech_matcher at hm
  dsimp only [] at hm
  split at hm
  · split at hm
    · exact Option.noConfusion hm
    · split at hm
      · split at hm
        · injection hm with h1
          injection h1 with h2 h3
          subst h3
          exact avoid_takeWhile hs
        · injection hm with h1
          injection h1 with h2 h3
          subst h3
          exact avoid_cons hstar (avoid_append (avoid_takeWhile hs) (avoid_cons hstar (by simp)))
      · exact Option.noConfusion hm
  · exact Option.noConfusion hm

theorem avoid_italic_matcher (c : Char) :
    ∀ prev s n repl, italic_matcher prev s = some (n, repl) → c ∉ s → c ∉ repl := by
  intro prev s n repl hm hs
  unfold italic_matcher at hm
  dsimp only [] at hm
  split at hm
  case _ c0 r1 =>
    split at hm
    · split at hm
      · exact Option.noConfusion hm
      · split at hm
        case _ =>
          split at hm
          · exact Option.noConfusion hm
          · injection hm with h1
            injection h1 with h2 h3
            subst h3
            exact avoid_takeWhile (avoid_tail hs)
        case _ => exact Option.noConfusion hm
    · exact Option.noConfusion hm
  case _ => exact Option.noConfusion hm

theorem avoid_sublist_chars {c : Char} {K K2 : List Char} (hK : c ∉ K)
    (hsub : ∀ a ∈ K2, a ∈ K) : c ∉ K2 :=
  fun hc => hK (hsub c hc)

theorem avoid_ite {c : Char} {P : Prop} [Decidable P] {A B : List Char}
    (hA : c ∉ A) (hB : c ∉ B) : c ∉ if P then A else B := by
  split <;> assumption

theorem avoid_wrap_technical_terms_in_italic (c : Char) (hstar : c ≠ '*')
    {l : List Char} (h : c ∉ l) : c ∉ wrap_technical_terms_in_italic l := by
  unfold wrap_technical_terms_in_italic
  split
  · exact h
  · split
    · exact h
    · split
      · exact h
      · split
        · exact h
        · exact avoid_runSub _ (avoid_tech_matcher c hstar)
            (avoid_runSub _ (avoid_snake_matcher c hstar) h)

theorem avoid_image_span_matcher (c : Char) (hK : c ∉ "![]()*".data) :
    ∀ prev s n repl, image_span_matcher prev s = some (n, repl) → c ∉ s → c ∉ repl := by
  intro prev s n repl hm hs
  have hstar : c ≠ '*' := fun he => hK (by rw [he]; decide)
  unfold image_span_matcher at hm
  dsimp only [] at hm
  split at hm
  case _ r0 =>
    split at hm
    · exact Option.noConfusion hm
    · split at hm
      case _ r2 heq =>
        split at hm
        · exact Option.noConfusion hm
        · split at hm
          case _ =>
            injection hm with h1
            injection h1 with h2 h3
            subst h3
            have hr0 : c ∉ r0 := avoid_tail (avoid_tail hs)
            have hr2 : c ∉ ']' :: '(' :: r2 := heq ▸ avoid_dropWhile hr0
            refine avoid_append (avoid_append ?_ (avoid_takeWhile (avoid_tail (avoid_tail hr2)))) ?_
            · exact avoid_wrap_technical_terms_in_italic c hstar
                (avoid_append (avoid_append (avoid_sublist_chars hK (by decide))
                  (avoid_takeWhile hr0)) (avoid_sublist_chars hK (by decide)))
            · exact avoid_wrap_technical_terms_in_italic c hstar
                (avoid_sublist_chars hK (by decide))
          case _ => exact Option.noConfusion hm
      case _ => exact Option.noConfusion hm
  case _ => exact Option.noConfusion hm

theorem avoid_split_replace_link (c : Char) (hK : c ∉ "![]()./".data)
    {levels : Nat} {bang : Bool} {alt path orig : List Char}
    (halt : c ∉ alt) (hpath : c ∉ path) (horig : c ∉ orig) :
    c ∉ split_replace_link levels bang alt path orig := by
  have hrs : c ∉ repeatSeg levels := avoid_repeatSeg (avoid_sublist_chars hK (by decide)) _
  have hbang : c ∉ (if bang then "![".data else "[".data) :=
    avoid_ite (avoid_sublist_chars hK (by decide)) (avoid_sublist_chars hK (by decide))
  have hsp : c ∉ pyStrip path := avoid_pyStrip hpath
  unfold split_replace_link
  dsimp only []
  split
  · exact horig
  · split
    · exact horig
    · split
      · split
        · exact avoid_append (avoid_append (avoid_append (avoid_append
            (avoid_append hbang halt) (avoid_sublist_chars hK (by decide))) hrs)
            (avoid_drop 2 hsp)) (avoid_sublist_chars hK (by decide))
        · split
          · exact horig
          · exact avoid_append (avoid_append (avoid_append (avoid_append
              (avoid_append hbang halt) (avoid_sublist_chars hK (by decide))) hrs)
              hsp) (avoid_sublist_chars hK (by decide))
      · exact horig

theorem avoid_split_link_matcher (c : Char) (hK : c ∉ "![]()./".data) (levels : Nat) :
    ∀ prev s n repl, split_link_matcher levels prev s = some (n, repl) → c ∉ s → c ∉ repl := by
  intro prev s n repl hm hs
  unfold split_link_matcher at hm
  split at hm
  case _ => exact Option.noConfusion hm
  case _ bang alt path total heq =>
    have hparts := avoid_link_parse heq hs
    injection hm with h1
    injection h1 with h2 h3
    subst h3
    exact avoid_split_replace_link c hK hparts.1 hparts.2 (avoid_take _ hs)

/-!
### Per-rule preservation lemmas
-/

theorem avoid_normalize_headers (c : Char) (hK : c ∉ "# ".data)
    {l : List Char} (h : c ∉ l) : c ∉ normalize_headers l := by
  unfold normalize_headers
  dsimp only []
  split
  · split
    case _ g2 heq =>
      exact avoid_append (avoid_sublist_chars hK (by decide))
        (avoid_tailSpacePlus heq (avoid_dropWhile h))
    case _ => exact h
  · exact h

theorem avoid_remove_checklists (c : Char) (hK : c ∉ "- ".data)
    {l : List Char} (h : c ∉ l) : c ∉ remove_checklists l := by
  unfold remove_checklists
  dsimp only []
  split
  case _ r2 heq =>
    split
    case _ x r4 heq2 =>
      split
      · have hr2 : c ∉ '-' :: r2 := heq ▸ avoid_dropWhile h
        have hr4 : c ∉ '[' :: x :: ']' :: r4 := heq2 ▸ avoid_dropWhile (avoid_tail hr2)
        exact avoid_append (avoid_takeWhile h)
          (avoid_cons (avoid_head hr2)
            (avoid_cons (fun he => hK (by rw [he]; decide))
              (avoid_dropWhile (avoid_tail (avoid_tail (avoid_tail hr4))))))
      · exact h
    case _ => exact h
  case _ => exact h

theorem avoid_bold_colon_core (c : Char) {l g1 seg r3 : List Char}
    (hm : bold_colon_core l = some (g1, seg, r3)) (h : c ∉ l) :
    c ∉ g1 ∧ c ∉ seg ∧ c ∉ r3 := by
  unfold bold_colon_core at hm
  dsimp only [] at hm
  split at hm
  · exact Option.noConfusion hm
  case _ g1x rest heq =>
    have hparts := avoid_parseListMarker heq h
    split at hm
    case _ r2 =>
      split at hm
      · exact Option.noConfusion hm
      · injection hm with h1
        injection h1 with h2 h3
        injection h3 with h4 h5
        subst h2 h4 h5
        have hr2 : c ∉ r2 := avoid_tail (avoid_tail hparts.2)
        exact ⟨hparts.1, avoid_takeWhile hr2, avoid_dropWhile hr2⟩
    case _ => exact Option.noConfusion hm

theorem avoid_fix_bold_colon_in_lists (c : Char) (hK : c ∉ ": ".data)
    {l : List Char} (h : c ∉ l) : c ∉ fix_bold_colon_in_lists l := by
  have hp1 : ∀ out, bold_colon_p1 l = some out → c ∉ out := by
    intro out hm
    unfold bold_colon_p1 at hm
    split at hm
    case _ g1 seg r3 heq =>
      have hparts := avoid_bold_colon_core c heq h
      split at hm
      · split at hm
        case _ g3 heq2 =>
          injection hm with h1
          subst h1
          exact avoid_append (avoid_append hparts.1 (avoid_dropLast hparts.2.1))
            (avoid_cons (fun he => hK (by rw [he]; decide))
              (avoid_cons (fun he => hK (by rw [he]; decide))
                (avoid_tailSpaceStar heq2 (avoid_tail (avoid_tail hparts.2.2)))))
        case _ => exact Option.noConfusion hm
      · exact Option.noConfusion hm
    case _ => exact Option.noConfusion hm
  have hp2 : ∀ out, bold_colon_p2 l = some out → c ∉ out := by
    intro out hm
    unfold bold_colon_p2 at hm
    split at hm
    case _ g1 seg r3 heq =>
      have hparts := avoid_bold_colon_core c heq h
      split at hm
      case _ g3 heq2 =>
        injection hm with h1
        subst h1
        exact avoid_append (avoid_append hparts.1 hparts.2.1)
          (avoid_cons (fun he => hK (by rw [he]; decide))
            (avoid_cons (fun he => hK (by rw [he]; decide))
              (avoid_tailSpaceStar heq2
                (avoid_tail (avoid_tail (avoid_tail hparts.2.2))))))
      case _ => exact Option.noConfusion hm
    case _ => exact Option.noConfusion hm
  unfold fix_bold_colon_in_lists
  split
  case _ out heq => exact hp1 out heq
  case _ =>
    split
    case _ out heq => exact hp2 out heq
    case _ => exact h

theorem avoid_code_dash_core (c : Char) {l g1 seg r3 : List Char}
    (hm : code_dash_core l = some (g1, seg, r3)) (h : c ∉ l) :
    c ∉ g1 ∧ c ∉ seg ∧ c ∉ r3 := by
  unfold code_dash_core at hm
  dsimp only [] at hm
  split at hm
  · exact Option.noConfusion hm
  case _ g1x rest heq =>
    have hparts := avoid_parseListMarker heq h
    split at hm
    case _ c0 r2 =>
      split at hm
      · split at hm
        · exact Option.noConfusion hm
        · split at hm
          case _ c1 r3x heq2 =>
            injection hm with h1
            injection h1 with h2 h3
            injection h3 with h4 h5
            subst h2 h4 h5
            have hr2 : c ∉ r2 := avoid_tail hparts.2
            have hr3 : c ∉ c1 :: r3x := heq2 ▸ avoid_dropWhile hr2
            exact ⟨hparts.1, avoid_takeWhile hr2, avoid_tail hr3⟩
          case _ => exact Option.noConfusion hm
      · exact Option.noConfusion hm
    case _ => exact Option.noConfusion hm

theorem avoid_fix_code_with_dash_in_lists (c : Char) (hK : c ∉ " —:-".data)
    {l : List Char} (h : c ∉ l) : c ∉ fix_code_with_dash_in_lists l := by
  unfold fix_code_with_dash_in_lists
  split
  case _ => exact h
  case _ g1 seg r3 heq =>
    have hparts := avoid_code_dash_core c heq h
    have hcK : ∀ x : Char, x ∈ " —:-".data → c ≠ x :=
      fun x hx he => hK (he ▸ hx)
    split
    case _ r4 heq2 =>
      split
      case _ g3 heq3 =>
        have hr4 : c ∉ '—' :: r4 := heq2 ▸ avoid_dropWhile hparts.2.2
        exact avoid_append (avoid_append hparts.1 hparts.2.1)
          (avoid_cons (hcK ' ' (by decide))
            (avoid_cons (hcK '—' (by decide))
              (avoid_cons (hcK ' ' (by decide))
                (avoid_tailSpaceStar heq3 (avoid_tail hr4)))))
      case _ => exact h
    case _ r4 heq2 =>
      split
      case _ g3 heq3 =>
        have hr4 : c ∉ ':' :: r4 := heq2 ▸ avoid_dropWhile hparts.2.2
        exact avoid_append (avoid_append hparts.1 hparts.2.1)
          (avoid_cons (hcK ':' (by decide))
            (avoid_cons (hcK ' ' (by decide))
              (avoid_tailSpaceStar heq3 (avoid_tail hr4))))
      case _ => exact h
    case _ r4 heq2 =>
      split
      case _ g3 heq3 =>
        have hr4 : c ∉ '-' :: r4 := heq2 ▸ avoid_dropWhile hparts.2.2
        exact avoid_append (avoid_append hparts.1 hparts.2.1)
          (avoid_cons (hcK ' ' (by decide))
            (avoid_cons (hcK '-' (by decide))
              (avoid_cons (hcK ' ' (by decide))
                (avoid_tailSpaceStar heq3 (avoid_tail hr4)))))
      case _ => exact h
    case _ => exact h

theorem avoid_remove_bold_in_lists (c : Char) {l : List Char} (h : c ∉ l) :
    c ∉ remove_bold_in_lists l := by
  unfold remove_bold_in_lists
  split
  · exact avoid_runSub _ (avoid_bold_pair_matcher c) h
  · exact h

theorem avoid_remove_code_in_lists (c : Char) {l : List Char} (h : c ∉ l) :
    c ∉ remove_code_in_lists l := by
  unfold remove_code_in_lists
  split
  · exact avoid_runSub _ (avoid_backtick_strip_matcher c) h
  · exact h

theorem avoid_fix_emoji_at_list_start (c : Char) (hK : c ∉ ": ".data)
    {l : List Char} (h : c ∉ l) : c ∉ fix_emoji_at_list_start l := by
  unfold fix_emoji_at_list_start
  split
  case _ => exact h
  case _ g1 rest heq =>
    have hparts := avoid_parseListMarker heq h
    split
    case _ e r2 =>
      have hrest : c ∉ e :: r2 := hparts.2
      split
      · split
        case _ v r3 =>
          split
          · split
            case _ g3 heq2 =>
              exact avoid_append hparts.1
                (avoid_cons (avoid_head hrest)
                  (avoid_cons (avoid_head (avoid_tail hrest))
                    (avoid_cons (fun he => hK (by rw [he]; decide))
                      (avoid_cons (fun he => hK (by rw [he]; decide))
                        (avoid_tailSpacePlus heq2 (avoid_tail (avoid_tail hrest)))))))
            case _ => exact h
          · split
            case _ g3 heq2 =>
              exact avoid_append hparts.1
                (avoid_cons (avoid_head hrest)
                  (avoid_cons (fun he => hK (by rw [he]; decide))
                    (avoid_cons (fun he => hK (by rw [he]; decide))
                      (avoid_tailSpacePlus heq2 (avoid_tail hrest)))))
            case _ => exact h
        case _ => exact h
      · exact h
    case _ => exact h

theorem avoid_remove_html_tags (c : Char) (hstar : c ≠ '*')
    {l : List Char} (h : c ∉ l) : c ∉ remove_html_tags l := by
  have hw1 : c ∉ "**".data := by
    intro hc
    simp only [List.mem_cons, List.not_mem_nil, or_false] at hc
    rcases hc with rfl | rfl <;> exact hstar rfl
  have hw2 : c ∉ "*".data := by
    intro hc
    simp only [List.mem_cons, List.not_mem_nil, or_false] at hc
    rcases hc with rfl
    exact hstar rfl
  unfold remove_html_tags
  exact avoid_runSub _ (avoid_html_generic_matcher c)
    (avoid_runSub _ (avoid_html_tag_matcher c _ _ _ _ hw2 hw2)
      (avoid_runSub _ (avoid_html_tag_matcher c _ _ _ _ hw1 hw1)
        (avoid_runSub _ (avoid_html_tag_matcher c _ _ _ _ hw2 hw2)
          (avoid_runSub _ (avoid_html_tag_matcher c _ _ _ _ hw1 hw1) h))))

theorem avoid_strip_bq_aux (c : Char) :
    ∀ fuel (l : List Char), c ∉ l → c ∉ strip_bq_aux fuel l := by
  intro fuel
  induction fuel with
  | zero => intro l h; exact h
  | succ f ih =>
    intro l h
    rw [strip_bq_aux]
    split
    case _ r2 heq =>
      split
      · exact h
      · exact ih _ (avoid_dropWhile (avoid_tail (heq ▸ avoid_dropWhile h)))
    case _ => exact h

theorem avoid_remove_blockquotes (c : Char) {l : List Char} (h : c ∉ l) :
    c ∉ remove_blockquotes l :=
  avoid_strip_bq_aux c l.length l h

theorem avoid_remove_bare_urls (c : Char) {l : List Char} (h : c ∉ l) :
    c ∉ remove_bare_urls l :=
  avoid_runSub _ (avoid_bare_url_matcher c) h

theorem avoid_convert_markdown_links (c : Char) (hK : c ∉ "* ()".data)
    {l : List Char} (h : c ∉ l) : c ∉ convert_markdown_links l :=
  avoid_runSub _ (avoid_convert_link_matcher c hK) h

theorem avoid_quote_fold (c : Char) (hq : c ≠ '"') :
    ∀ (ops : List (List Char)), (∀ op ∈ ops, c ∉ op) → ∀ {acc : List Char}, c ∉ acc →
      c ∉ ops.foldl (fun acc op => runSub (op_matcher op) acc) acc := by
  intro ops
  induction ops with
  | nil => intro _ acc h; exact h
  | cons op rest ih =>
    intro hops acc h
    rw [List.foldl_cons]
    exact ih (fun o ho => hops o (List.mem_cons_of_mem op ho))
      (avoid_runSub _ (avoid_op_matcher c op (hops op (List.mem_cons_self op rest)) hq) h)

theorem avoid_quote_operators_in_lists (c : Char) (hK : c ∉ "\"-><=!@?".data)
    {l : List Char} (h : c ∉ l) : c ∉ quote_operators_in_lists l := by
  unfold quote_operators_in_lists
  split
  · exact h
  · split
    · exact h
    · refine avoid_quote_fold c (fun he => hK (by rw [he]; decide)) _ ?_ h
      intro op hop
      unfold quote_ops_list at hop
      simp only [List.mem_cons, List.not_mem_nil, or_false] at hop
      rcases hop with rfl | rfl | rfl | rfl | rfl | rfl | rfl <;>
        exact avoid_sublist_chars hK (by decide)

theorem avoid_remove_inline_code_everywhere (c : Char) (hstar : c ≠ '*')
    {l : List Char} (h : c ∉ l) : c ∉ remove_inline_code_everywhere l := by
  unfold remove_inline_code_everywhere
  split
  · exact h
  · exact avoid_runSub _ (avoid_backtick_italic_matcher c hstar) h

theorem avoid_wrap_technical_terms_in_italic_except_images (c : Char)
    (hK : c ∉ "![]()*".data) {l : List Char} (h : c ∉ l) :
    c ∉ wrap_technical_terms_in_italic_except_images l := by
  unfold wrap_technical_terms_in_italic_except_images
  split
  · exact avoid_runSub _ (avoid_image_span_matcher c hK) h
  · exact avoid_wrap_technical_terms_in_italic c (fun he => hK (by rw [he]; decide)) h

theorem avoid_remove_italic_in_lists (c : Char) {l : List Char} (h : c ∉ l) :
    c ∉ remove_italic_in_lists l := by
  unfold remove_italic_in_lists
  split
  · exact avoid_runSub _ (avoid_italic_matcher c) h
  · exact h

/-- The constants any rule of the per-line chain can introduce. -/
def ruleConsts : List Char := "# -:—*()!\"<=>@?.[]".data

theorem avoid_rule_chain (c : Char) (hK : c ∉ ruleConsts)
    {l : List Char} (h : c ∉ l) : c ∉ rule_chain l := by
  have hstar : c ≠ '*' := fun he => hK (by rw [he]; decide)
  unfold rule_chain
  exact avoid_remove_italic_in_lists c
    (avoid_wrap_technical_terms_in_italic_except_images c (avoid_sublist_chars hK (by decide))
      (avoid_remove_inline_code_everywhere c hstar
        (avoid_quote_operators_in_lists c (avoid_sublist_chars hK (by decide))
          (avoid_convert_markdown_links c (avoid_sublist_chars hK (by decide))
            (avoid_remove_bare_urls c
              (avoid_remove_blockquotes c
                (avoid_remove_html_tags c hstar
                  (avoid_fix_emoji_at_list_start c (avoid_sublist_chars hK (by decide))
                    (avoid_remove_code_in_lists c
                      (avoid_remove_bold_in_lists c
                        (avoid_fix_code_with_dash_in_lists c (avoid_sublist_chars hK (by decide))
                          (avoid_fix_bold_colon_in_lists c (avoid_sublist_chars hK (by decide))
                            (avoid_remove_checklists c (avoid_sublist_chars hK (by decide))
                              (avoid_normalize_headers c (avoid_sublist_chars hK (by decide))
                                h))))))))))))))

/-!
### Newline handling of reading, the pre-passes and the loops
-/

theorem univNL_no_cr : ∀ l, '\r' ∉ univNL l := by
  intro l
  induction l using univNL.induct with
  | case1 => simp [univNL]
  | case2 rest ih =>
    rw [show univNL ('\r' :: '\n' :: rest) = '\n' :: univNL rest from rfl]
    exact avoid_cons (by decide) ih
  | case3 rest h1 ih =>
    rw [univNL.eq_3 rest h1]
    exact avoid_cons (by decide) ih
  | case4 c rest h1 h2 ih =>
    rw [univNL.eq_4 c rest h1 h2]
    exact avoid_cons (fun he => h2 he.symm) ih

theorem mem_splitKeepAux_subset : ∀ (l acc : List Char) (piece : List Char),
    piece ∈ splitKeepAux acc l → ∀ a ∈ piece, a ∈ acc ∨ a ∈ l ∨ a = '\n' := by
  intro l
  induction l with
  | nil =>
    intro acc piece hp a ha
    unfold splitKeepAux at hp
    split at hp
    · simp at hp
    · rcases List.mem_singleton.mp hp with rfl
      exact Or.inl (List.mem_reverse.mp ha)
  | cons c rest ih =>
    intro acc piece hp a ha
    unfold splitKeepAux at hp
    split at hp
    · rcases List.mem_cons.mp hp with rfl | hp2
      · rcases List.mem_append.mp ha with h1 | h2
        · exact Or.inl (List.mem_reverse.mp h1)
        · rcases List.mem_singleton.mp h2 with rfl
          exact Or.inr (Or.inr rfl)
      · rcases ih [] piece hp2 a ha with h1 | h2 | h3
        · simp at h1
        · exact Or.inr (Or.inl (List.mem_cons_of_mem c h2))
        · exact Or.inr (Or.inr h3)
    · rcases ih (c :: acc) piece hp a ha with h1 | h2 | h3
      · rcases List.mem_cons.mp h1 with rfl | h4
        · exact Or.inr (Or.inl (List.mem_cons_self _ rest))
        · exact Or.inl h4
      · exact Or.inr (Or.inl (List.mem_cons_of_mem c h2))
      · exact Or.inr (Or.inr h3)

theorem rstripNL_subset {a : Char} {l : List Char} (h : a ∈ rstripNL l) : a ∈ l := by
  unfold rstripNL at h
  exact List.mem_reverse.mp ((List.dropWhile_sublist _).subset (List.mem_reverse.mp h))

theorem rstripNL_append_nl (xs : List Char) : rstripNL (xs ++ ['\n']) = rstripNL xs := by
  unfold rstripNL
  rw [List.reverse_append]
  simp [List.dropWhile_cons]

theorem splitKeep_lines_no_nl : ∀ (l acc : List Char), '\n' ∉ acc →
    ∀ piece ∈ splitKeepAux acc l, '\n' ∉ rstripNL piece := by
  intro l
  induction l with
  | nil =>
    intro acc hacc piece hp
    unfold splitKeepAux at hp
    split at hp
    · simp at hp
    · rcases List.mem_singleton.mp hp with rfl
      exact fun hc => hacc (List.mem_reverse.mp (rstripNL_subset hc))
  | cons c rest ih =>
    intro acc hacc piece hp
    unfold splitKeepAux at hp
    split at hp
    · rcases List.mem_cons.mp hp with rfl | hp2
      · rw [rstripNL_append_nl]
        exact fun hc => hacc (List.mem_reverse.mp (rstripNL_subset hc))
      · exact ih [] (by simp) piece hp2
    · rename_i hne
      exact ih (c :: acc) (avoid_cons (fun he => hne (by rw [← he])) hacc) piece hp

/-- Every line produced by the rewrite pipeline's read step is free of both
newline characters. -/
theorem read_lines_good (raw : List Char) :
    ∀ piece ∈ read_lines raw, '\n' ∉ piece ∧ '\r' ∉ piece := by
  intro piece hp
  unfold read_lines splitKeep at hp
  rw [List.mem_map] at hp
  obtain ⟨q, hq, rfl⟩ := hp
  constructor
  · exact splitKeep_lines_no_nl (univNL raw) [] (by simp) q hq
  · intro hc
    rcases mem_splitKeepAux_subset (univNL raw) [] q hq '\r' (rstripNL_subset hc) with
      h1 | h2 | h3
    · simp at h1
    · exact univNL_no_cr raw h2
    · exact absurd h3 (by decide)

/-- Every line given to the splitter's state machine is free of `'\r'`. -/
theorem split_read_lines_no_cr (raw : List Char) :
    ∀ piece ∈ split_read_lines raw, '\r' ∉ piece := by
  intro piece hp hc
  rcases mem_splitKeepAux_subset (univNL raw) [] piece hp '\r' hc with h1 | h2 | h3
  · simp at h1
  · exact univNL_no_cr raw h2
  · exact absurd h3 (by decide)

theorem avoid_process_details_line (c : Char) {l out : List Char}
    (hm : process_details_line l = some out) (h : c ∉ l) : c ∉ out := by
  unfold process_details_line at hm
  dsimp only [] at hm
  split at hm
  · split at hm
    · exact Option.noConfusion hm
    · injection hm with h1
      subst h1
      exact avoid_runSub _ (avoid_details_tag_matcher c) h
  · split at hm
    · exact Option.noConfusion hm
    · split at hm
      · exact Option.noConfusion hm
      · split at hm
        · exact Option.noConfusion hm
        · injection hm with h1
          subst h1
          exact h

theorem avoid_process_details_blocks (c : Char) {lines : List (List Char)}
    (h : ∀ l ∈ lines, c ∉ l) : ∀ out ∈ process_details_blocks lines, c ∉ out := by
  intro out hout
  unfold process_details_blocks at hout
  obtain ⟨a, ha, hm⟩ := List.mem_filterMap.mp hout
  exact avoid_process_details_line c hm (h a ha)

theorem avoid_nested_item_text (c : Char) {stripped : List Char} (h : c ∉ stripped) :
    c ∉ nested_item_text stripped := by
  unfold nested_item_text
  split
  · exact avoid_dropWhile (avoid_drop 1 (avoid_dropWhile h))
  · split
    · exact avoid_dropWhile (avoid_drop 1 h)
    · exact h

theorem avoid_unify_step (c : Char) (hK : c ∉ " .-0123456789".data)
    (st : UnifyState) {l : List Char} (h : c ∉ l) : c ∉ (unify_step st l).2 := by
  have htext : c ∉ nested_item_text (pyLstrip l) :=
    avoid_nested_item_text c (avoid_pyLstrip h)
  have hsp : ∀ n, c ∉ spacesN n := avoid_spacesN (fun he => hK (by rw [he]; decide))
  unfold unify_step
  dsimp only []
  split
  · exact h
  · split
    · exact h
    · split
      · exact h
      · exact avoid_append (avoid_append (hsp _)
            (avoid_natToStr (avoid_sublist_chars hK (by decide)) _))
          (avoid_cons (fun he => hK (by rw [he]; decide))
            (avoid_cons (fun he => hK (by rw [he]; decide)) htext))
      · exact avoid_append (hsp _)
          (avoid_cons (fun he => hK (by rw [he]; decide))
            (avoid_cons (fun he => hK (by rw [he]; decide)) htext))

theorem avoid_unify_go (c : Char) (hK : c ∉ " .-0123456789".data) :
    ∀ (lines : List (List Char)) (st : UnifyState), (∀ l ∈ lines, c ∉ l) →
      ∀ out ∈ unify_go st lines, c ∉ out := by
  intro lines
  induction lines with
  | nil => intro st _ out hout; simp [unify_go] at hout
  | cons l rest ih =>
    intro st hall out hout
    rw [unify_go] at hout
    rcases List.mem_cons.mp hout with rfl | h2
    · exact avoid_unify_step c hK st (hall l (by simp))
    · exact ih _ (fun x hx => hall x (by simp [hx])) out h2

theorem remove_show_answer_headers_eq {l l2 : List Char}
    (hm : remove_show_answer_headers l = some l2) : l2 = l := by
  unfold remove_show_answer_headers at hm
  dsimp only [] at hm
  split at hm
  · injection hm with h1
    exact h1.symm
  · split at hm
    · exact Option.noConfusion hm
    · injection hm with h1
      exact h1.symm

theorem avoid_simplify_step (c : Char) (hK : c ∉ ruleConsts) {b : Bool}
    {l out : List Char} (hm : (simplify_step b l).2 = some out) (h : c ∉ l) :
    c ∉ out := by
  unfold simplify_step at hm
  split at hm
  · injection hm with h1
    subst h1
    exact h
  · split at hm
    · injection hm with h1
      subst h1
      exact h
    · split at hm
      · exact Option.noConfusion hm
      · rename_i l2 heq
        injection hm with h1
        subst h1
        rw [remove_show_answer_headers_eq heq]
        exact avoid_rule_chain c hK h

theorem avoid_simplify_go (c : Char) (hK : c ∉ ruleConsts) :
    ∀ (lines : List (List Char)) (b : Bool), (∀ l ∈ lines, c ∉ l) →
      ∀ out ∈ simplify_go b lines, c ∉ out := by
  intro lines
  induction lines with
  | nil => intro b _ out hout; simp [simplify_go] at hout
  | cons l rest ih =>
    intro b hall out hout
    rw [simplify_go] at hout
    split at hout
    · rename_i b2 out0 hstep
      rcases List.mem_cons.mp hout with rfl | hmem
      · exact avoid_simplify_step c hK (by rw [hstep]) (hall l (by simp))
      · exact ih _ (fun x hx => hall x (by simp [hx])) out hmem
    · exact ih _ (fun x hx => hall x (by simp [hx])) out hout

theorem avoid_simplify_lines (c : Char) (hK : c ∉ ruleConsts)
    (hK2 : c ∉ " .-0123456789".data) {lines : List (List Char)}
    (h : ∀ l ∈ lines, c ∉ l) : ∀ out ∈ simplify_lines lines, c ∉ out := by
  intro out hout
  unfold simplify_lines at hout
  exact avoid_simplify_go c hK _ false
    (avoid_unify_go c hK2 _ _ (avoid_process_details_blocks c h)) out hout

theorem avoid_joinLF (c : Char) (hnl : c ≠ '\n') :
    ∀ ls : List (List Char), (∀ l ∈ ls, c ∉ l) → c ∉ joinLF ls := by
  intro ls
  induction ls with
  | nil => simp [joinLF]
  | cons l rest ih =>
    intro hall
    cases rest with
    | nil => exact hall l (by simp)
    | cons r rs =>
      show c ∉ l ++ '\n' :: joinLF (r :: rs)
      exact avoid_append (hall l (by simp))
        (avoid_cons hnl (ih (fun x hx => hall x (by simp [hx]))))

theorem avoid_joinAll (c : Char) :
    ∀ ls : List (List Char), (∀ l ∈ ls, c ∉ l) → c ∉ joinAll ls := by
  intro ls
  induction ls with
  | nil => simp [joinAll]
  | cons l rest ih =>
    intro hall
    show c ∉ l ++ joinAll rest
    exact avoid_append (hall l (by simp)) (ih (fun x hx => hall x (by simp [hx])))

theorem avoid_split_step (c : Char) (st : SplitState) (l : List Char)
    (h1 : ∀ sec ∈ st.sections, ∀ x ∈ sec, c ∉ x) (h2 : ∀ x ∈ st.current, c ∉ x)
    (hl : c ∉ l) :
    (∀ sec ∈ (split_step st l).sections, ∀ x ∈ sec, c ∉ x) ∧
    (∀ x ∈ (split_step st l).current, c ∉ x) := by
  have hcur : ∀ x ∈ st.current ++ [l], c ∉ x := by
    intro x hx
    rcases List.mem_append.mp hx with hx1 | hx2
    · exact h2 x hx1
    · rcases List.mem_singleton.mp hx2 with rfl
      exact hl
  have hsec : ∀ sec ∈ st.sections ++ [st.current], ∀ x ∈ sec, c ∉ x := by
    intro sec hsec x hx
    rcases List.mem_append.mp hsec with hs1 | hs2
    · exact h1 sec hs1 x hx
    · rcases List.mem_singleton.mp hs2 with rfl
      exact h2 x hx
  have hsing : ∀ x ∈ [l], c ∉ x := by
    intro x hx
    rcases List.mem_singleton.mp hx with rfl
    exact hl
  unfold split_step
  split
  · exact ⟨h1, hcur⟩
  · split
    · exact ⟨h1, hcur⟩
    · split
      · split
        · exact ⟨hsec, hsing⟩
        · exact ⟨h1, hsing⟩
      · exact ⟨h1, hcur⟩

theorem avoid_split_fold (c : Char) :
    ∀ (lines : List (List Char)) (st : SplitState),
      (∀ sec ∈ st.sections, ∀ x ∈ sec, c ∉ x) → (∀ x ∈ st.current, c ∉ x) →
      (∀ l ∈ lines, c ∉ l) →
      (∀ sec ∈ (lines.foldl split_step st).sections, ∀ x ∈ sec, c ∉ x) ∧
      (∀ x ∈ (lines.foldl split_step st).current, c ∉ x) := by
  intro lines
  induction lines with
  | nil => intro st h1 h2 _; exact ⟨h1, h2⟩
  | cons l rest ih =>
    intro st h1 h2 h3
    rw [List.foldl_cons]
    have hstep := avoid_split_step c st l h1 h2 (h3 l (by simp))
    exact ih _ hstep.1 hstep.2 (fun x hx => h3 x (by simp [hx]))

theorem avoid_parse_markdown_file (c : Char) {lines : List (List Char)}
    (h : ∀ l ∈ lines, c ∉ l) :
    ∀ sec ∈ parse_markdown_file lines, ∀ x ∈ sec, c ∉ x := by
  intro sec hsec x hx
  unfold parse_markdown_file at hsec
  have hfold := avoid_split_fold c lines ⟨[], [], false⟩ (by simp) (by simp) h
  dsimp only [] at hsec
  split at hsec
  · rcases List.mem_append.mp hsec with hs1 | hs2
    · exact hfold.1 sec hs1 x hx
    · rcases List.mem_singleton.mp hs2 with rfl
      exact hfold.2 x hx
  · exact hfold.1 sec hsec x hx

theorem avoid_adjust_relative_path (c : Char) (hK : c ∉ "![]()./".data)
    {l : List Char} (h : c ∉ l) (levels : Nat) : c ∉ adjust_relative_path l levels := by
  unfold adjust_relative_path
  split
  · exact h
  · exact avoid_runSub _ (avoid_split_link_matcher c hK levels) h

/-- C7: every output file uses LF as its sole line delimiter.  The rewrite
pipeline's output and every section file content produced by the splitter
are free of carriage returns, for every input text (CRLF/LF mixing in the
input is normalised away on reading and never reintroduced). -/
theorem c7_outputs_lf_only (raw : String) (N : Nat) :
    '\r' ∉ (simplify_output raw).data ∧
    (∀ content ∈ section_contents (split_read_lines raw.data) N, '\r' ∉ content) := by
  constructor
  · show '\r' ∉ joinLF (simplify_lines (read_lines raw.data))
    apply avoid_joinLF '\r' (by decide)
    apply avoid_simplify_lines '\r' (by decide) (by decide)
    intro l hl
    exact (read_lines_good raw.data l hl).2
  · intro content hc
    unfold section_contents at hc
    obtain ⟨sec, hsec, rfl⟩ := List.mem_map.mp hc
    apply avoid_joinAll '\r'
    intro x hx
    obtain ⟨y, hy, rfl⟩ := List.mem_map.mp hx
    exact avoid_adjust_relative_path '\r' (by decide)
      (avoid_parse_markdown_file '\r' (split_read_lines_no_cr raw.data) sec hsec y hy) N

theorem joinLF_getLast :
    ∀ ls : List (List Char), (∀ l ∈ ls, '\n' ∉ l) →
      (joinLF ls).getLast? = some '\n' → ls.getLast? = some [] := by
  intro ls
  induction ls with
  | nil => intro _ h; simp [joinLF] at h
  | cons l rest ih =>
    intro hall hlast
    cases rest with
    | nil =>
      exfalso
      have hl : joinLF [l] = l := rfl
      rw [hl] at hlast
      have hmem : '\n' ∈ l := by
        rcases List.mem_getLast?_eq_getLast (Option.mem_def.mpr hlast) with ⟨hne, heq⟩
        rw [heq]
        exact List.getLast_mem hne
      exact hall l (by simp) hmem
    | cons r rs =>
      have hstep : joinLF (l :: r :: rs) = l ++ '\n' :: joinLF (r :: rs) := rfl
      rw [hstep, List.getLast?_append] at hlast
      rw [List.getLast?_cons_cons]
      cases hj : joinLF (r :: rs) with
      | nil =>
        cases rs with
        | nil =>
          have hr : r = [] := by
            have hone : joinLF [r] = r := rfl
            rw [hone] at hj
            exact hj
          rw [hr]
          rfl
        | cons r2 rs2 =>
          exfalso
          have htwo : joinLF (r :: r2 :: rs2) = r ++ '\n' :: joinLF (r2 :: rs2) := rfl
          rw [htwo] at hj
          exact List.noConfusion (List.append_eq_nil.mp hj).2
      | cons j js =>
        apply ih (fun x hx => hall x (by simp [hx]))
        rw [hj] at hlast ⊢
        rw [List.getLast?_cons_cons] at hlast
        cases hl2 : (j :: js).getLast? with
        | none => exact absurd (List.getLast?_eq_none_iff.mp hl2) (by simp)
        | some x =>
          rw [hl2] at hlast
          simp only [Option.or_some] at hlast
          exact hlast

theorem c7_outputs_lf_only_witness :
    '\r' ∉ (simplify_output "a\r\nb\rc\n## D\r\n").data ∧
    '\r' ∉ "## D\n".data :=
  ⟨(c7_outputs_lf_only "a\r\nb\rc\n## D\r\n" 1).1,
   (c7_outputs_lf_only "a\r\nb\rc\n## D\r\n" 1).2 "## D\n".data (by decide)⟩

/-- C10 amended: the rewrite pipeline joins the processed lines with a
single `'\n'` and appends no trailing newline, so its output ends with a
newline character only when the final processed line is empty (which
happens exactly when the input ends in a blank line); it is not the case
that the output never ends with a newline. -/
theorem c10_trailing_newline_iff_blank_last (raw : String) :
    (simplify_output raw).data.getLast? = some '\n' →
      (simplify_lines (read_lines raw.data)).getLast? = some [] := by
  intro hlast
  apply joinLF_getLast (simplify_lines (read_lines raw.data))
  · intro l hl
    exact avoid_simplify_lines '\n' (by decide) (by decide)
      (fun x hx => (read_lines_good raw.data x hx).1) l hl
  · exact hlast

theorem c10_trailing_newline_iff_blank_last_witness :
    (simplify_lines (read_lines "x\n\n".data)).getLast? = some [] :=
  c10_trailing_newline_iff_blank_last "x\n\n" (by decide)

theorem isPrefixOf_cons_ne {a b : Char} (h : a ≠ b) (t l : List Char) :
    List.isPrefixOf (a :: t) (b :: l) = false := by
  simp [List.isPrefixOf, h]

theorem isPrefixOf_cons_same (a : Char) (t l : List Char) :
    List.isPrefixOf (a :: t) (a :: l) = List.isPrefixOf t l := by
  simp [List.isPrefixOf]

theorem isPrefixOf_self_append (l t : List Char) :
    List.isPrefixOf l (l ++ t) = true := by
  induction l with
  | nil => simp [List.isPrefixOf]
  | cons a as ih => simp [List.isPrefixOf, ih]

/-- `link_parse` on a well-formed single link built from its parts. -/
theorem link_parse_build (bang : Bool) (alt url : List Char)
    (halt : ∀ a ∈ alt, a ≠ ']') (hurl : ∀ a ∈ url, a ≠ ')') (hne : url ≠ []) :
    link_parse true
      ((if bang then "![".data else "[".data) ++ (alt ++ ("](".data ++ (url ++ [')'])))) =
      some (bang, alt, url, (if bang then 2 else 1) + alt.length + 2 + url.length + 1) := by
  have hcore : link_parse_core true bang (alt ++ (']' :: '(' :: (url ++ [')']))) =
      some (bang, alt, url, (if bang then 2 else 1) + alt.length + 2 + url.length + 1) := by
    unfold link_parse_core
    rw [takeWhile_append_stop _ alt ']' _
        (fun a ha => decide_eq_true (halt a ha)) (by decide),
      dropWhile_append_stop _ alt ']' _
        (fun a ha => decide_eq_true (halt a ha)) (by decide)]
    simp only [Bool.not_true, and_false, if_false]
    rw [takeWhile_append_stop _ url ')' []
        (fun a ha => decide_eq_true (hurl a ha)) (by decide),
      dropWhile_append_stop _ url ')' []
        (fun a ha => decide_eq_true (hurl a ha)) (by decide)]
    simp [List.isEmpty_iff, hne]
  cases bang with
  | true =>
    show link_parse true ('!' :: '[' :: (alt ++ (']' :: '(' :: (url ++ [')'])))) = _
    rw [link_parse]
    exact hcore
  | false =>
    show link_parse true ('[' :: (alt ++ (']' :: '(' :: (url ++ [')'])))) = _
    rw [link_parse]
    exact hcore

/-- C5: the splitter's per-link path adjustment, on a line consisting of one
markdown reference, for any `levels_up = N > 0`: an image reference (image
syntax or image extension) with a `./` path has the prefix replaced by `N`
parent segments; a bare image path gains `N` leading parent segments; a path
already starting with `../` is unchanged; and a non-image link is never
adjusted. -/
theorem c5_path_adjustment (N : Nat) (b : Bool) (alt p : List Char)
    (hN : 0 < N)
    (halt : ∀ a ∈ alt, a ≠ ']')
    (hp : ∀ a ∈ p, isPySpace a = false ∧ a ≠ ')') :
    ((b || is_image_url ("./".data ++ p)) = true →
      adjust_relative_path
        ((if b then "![".data else "[".data) ++ (alt ++ ("](".data ++ (("./".data ++ p) ++ [')'])))) N =
      (if b then "![".data else "[".data) ++ alt ++ "](".data ++ repeatSeg N ++ p ++ [')']) ∧
    (p ≠ [] → (b || is_image_url p) = true →
      startsWithL "./".data p = false → startsWithL "../".data p = false →
      startsWithL "/".data p = false →
      startsWithL "http://".data p = false → startsWithL "https://".data p = false →
      adjust_relative_path
        ((if b then "![".data else "[".data) ++ (alt ++ ("](".data ++ (p ++ [')'])))) N =
      (if b then "![".data else "[".data) ++ alt ++ "](".data ++ repeatSeg N ++ p ++ [')']) ∧
    ((b || is_image_url ("../".data ++ p)) = true →
      adjust_relative_path
        ((if b then "![".data else "[".data) ++ (alt ++ ("](".data ++ (("../".data ++ p) ++ [')'])))) N =
      (if b then "![".data else "[".data) ++ (alt ++ ("](".data ++ (("../".data ++ p) ++ [')'])))) ∧
    (p ≠ [] → is_image_url p = false →
      adjust_relative_path ("[".data ++ (alt ++ ("](".data ++ (p ++ [')'])))) N =
      "[".data ++ (alt ++ ("](".data ++ (p ++ [')'])))) := by
  have hpn : ∀ a ∈ p, ¬ a = ')' := fun a ha => (hp a ha).2
  have hNne : ¬ N = 0 := Nat.pos_iff_ne_zero.mp hN
  have core : ∀ (bg : Bool) (url : List Char), url ≠ [] → (∀ a ∈ url, ¬ a = ')') →
      adjust_relative_path
        ((if bg then "![".data else "[".data) ++ (alt ++ ("](".data ++ (url ++ [')'])))) N =
      split_replace_link N bg alt url
        ((if bg then "![".data else "[".data) ++ (alt ++ ("](".data ++ (url ++ [')'])))) := by
    intro bg url hne hurl
    have hparse := link_parse_build bg alt url halt hurl hne
    have hlen : (if bg then 2 else 1) + alt.length + 2 + url.length + 1 =
        ((if bg then "![".data else "[".data) ++ (alt ++ ("](".data ++ (url ++ [')'])))).length := by
      cases bg <;> simp [List.length_append] <;> omega
    have hm : split_link_matcher N none
        ((if bg then "![".data else "[".data) ++ (alt ++ ("](".data ++ (url ++ [')'])))) =
        some ((if bg then 2 else 1) + alt.length + 2 + url.length + 1,
          split_replace_link N bg alt url
            (((if bg then "![".data else "[".data) ++
              (alt ++ ("](".data ++ (url ++ [')'])))).take
                ((if bg then 2 else 1) + alt.length + 2 + url.length + 1))) := by
      show (match link_parse true
          ((if bg then "![".data else "[".data) ++ (alt ++ ("](".data ++ (url ++ [')'])))) with
        | none => none
        | some (bang, alt2, path, total) =>
          some (total, split_replace_link N bang alt2 path
            (((if bg then "![".data else "[".data) ++ (alt ++ ("](".data ++ (url ++ [')'])))).take total))) = _
      rw [hparse]
    rw [hlen, List.take_length] at hm
    have hnonempty : (if bg then "![".data else "[".data) ++ (alt ++ ("](".data ++ (url ++ [')']))) ≠ [] := by
      cases bg <;> simp
    rw [adjust_relative_path, if_neg hNne]
    exact runSub_full _ _ _ hnonempty hm
  refine ⟨?case1, ?case2, ?case3, ?case4⟩
  case case1 =>
    intro himg
    have hurl : ∀ a ∈ ("./".data ++ p), ¬ a = ')' := by
      intro a ha
      rcases List.mem_append.mp ha with h1 | h2
      · fin_cases h1 <;> decide
      · exact hpn a h2
    rw [core b ("./".data ++ p) (by simp) hurl]
    have hstrip : pyStrip ("./".data ++ p) = "./".data ++ p := by
      apply pyStrip_eq_self
      intro a ha
      rcases List.mem_append.mp ha with h1 | h2
      · fin_cases h1 <;> decide
      · exact (hp a h2).1
    have hhttp : startsWithL "http://".data ("./".data ++ p) = false := by
      show List.isPrefixOf ('h' :: "ttp://".data) ('.' :: '/' :: p) = false
      exact isPrefixOf_cons_ne (by decide) _ _
    have hhttps : startsWithL "https://".data ("./".data ++ p) = false := by
      show List.isPrefixOf ('h' :: "ttps://".data) ('.' :: '/' :: p) = false
      exact isPrefixOf_cons_ne (by decide) _ _
    have hslash : startsWithL "/".data ("./".data ++ p) = false := by
      show List.isPrefixOf ('/' :: []) ('.' :: '/' :: p) = false
      exact isPrefixOf_cons_ne (by decide) _ _
    have hdot : startsWithL "./".data ("./".data ++ p) = true := isPrefixOf_self_append _ _
    have hdrop : List.drop 2 ("./".data ++ p) = p := rfl
    unfold split_replace_link
    rw [hstrip]
    rw [if_neg (show ¬ (startsWithL "http://".data ("./".data ++ p) = true ∨
        startsWithL "https://".data ("./".data ++ p) = true) from by
      rw [hhttp, hhttps]; simp)]
    rw [if_neg (show ¬ (startsWithL "/".data ("./".data ++ p) = true) from by
      rw [hslash]; simp)]
    rw [if_pos himg, if_pos hdot, hdrop]
  case case2 =>
    intro hne himg hdot hdd hslash hhttp hhttps
    have hstrip : pyStrip p = p := pyStrip_eq_self p (fun a ha => (hp a ha).1)
    rw [core b p hne hpn]
    unfold split_replace_link
    rw [hstrip]
    rw [if_neg (show ¬ (startsWithL "http://".data p = true ∨
        startsWithL "https://".data p = true) from by rw [hhttp, hhttps]; simp)]
    rw [if_neg (show ¬ (startsWithL "/".data p = true) from by rw [hslash]; simp)]
    rw [if_pos himg]
    rw [if_neg (show ¬ (startsWithL "./".data p = true) from by rw [hdot]; simp)]
    rw [if_neg (show ¬ (startsWithL "../".data p = true) from by rw [hdd]; simp)]
  case case3 =>
    intro himg
    have hurl : ∀ a ∈ ("../".data ++ p), ¬ a = ')' := by
      intro a ha
      rcases List.mem_append.mp ha with h1 | h2
      · fin_cases h1 <;> decide
      · exact hpn a h2
    rw [core b ("../".data ++ p) (by simp) hurl]
    have hstrip : pyStrip ("../".data ++ p) = "../".data ++ p := by
      apply pyStrip_eq_self
      intro a ha
      rcases List.mem_append.mp ha with h1 | h2
      · fin_cases h1 <;> decide
      · exact (hp a h2).1
    have hhttp : startsWithL "http://".data ("../".data ++ p) = false := by
      show List.isPrefixOf ('h' :: "ttp://".data) ('.' :: '.' :: '/' :: p) = false
      exact isPrefixOf_cons_ne (by decide) _ _
    have hhttps : startsWithL "https://".data ("../".data ++ p) = false := by
      show List.isPrefixOf ('h' :: "ttps://".data) ('.' :: '.' :: '/' :: p) = false
      exact isPrefixOf_cons_ne (by decide) _ _
    have hslash : startsWithL "/".data ("../".data ++ p) = false := by
      show List.isPrefixOf ('/' :: []) ('.' :: '.' :: '/' :: p) = false
      exact isPrefixOf_cons_ne (by decide) _ _
    have hdot : startsWithL "./".data ("../".data ++ p) = false := by
      show List.isPrefixOf ('.' :: '/' :: []) ('.' :: '.' :: '/' :: p) = false
      rw [isPrefixOf_cons_same]
      exact isPrefixOf_cons_ne (by decide) _ _
    have hdd : startsWithL "../".data ("../".data ++ p) = true := isPrefixOf_self_append _ _
    unfold split_replace_link
    rw [hstrip]
    rw [if_neg (show ¬ (startsWithL "http://".data ("../".data ++ p) = true ∨
        startsWithL "https://".data ("../".data ++ p) = true) from by
      rw [hhttp, hhttps]; simp)]
    rw [if_neg (show ¬ (startsWithL "/".data ("../".data ++ p) = true) from by
      rw [hslash]; simp)]
    rw [if_pos himg]
    rw [if_neg (show ¬ (startsWithL "./".data ("../".data ++ p) = true) from by
      rw [hdot]; simp)]
    rw [if_pos hdd]
  case case4 =>
    intro hne himg
    have hstrip : pyStrip p = p := pyStrip_eq_self p (fun a ha => (hp a ha).1)
    show adjust_relative_path
        ((if (false : Bool) then "![".data else "[".data) ++ (alt ++ ("](".data ++ (p ++ [')'])))) N =
      (if (false : Bool) then "![".data else "[".data) ++ (alt ++ ("](".data ++ (p ++ [')'])))
    rw [core false p hne hpn]
    unfold split_replace_link
    rw [hstrip]
    by_cases hhttp : (startsWithL "http://".data p = true ∨ startsWithL "https://".data p = true)
    · rw [if_pos hhttp]
    · rw [if_neg hhttp]
      by_cases hslash : startsWithL "/".data p = true
      · rw [if_pos hslash]
      · rw [if_neg hslash]
        rw [if_neg (show ¬ ((false || is_image_url p) = true) from by simp [himg])]

/-- C1: the rewrite pipeline does not leave correctly fenced regions
untouched.  On `"```\n1. a\n   - b\n```\n"` the fence delimiters are
correctly paired, yet the fenced line `"   - b"` comes out as `"   1. b"`:
the nested-list pre-pass runs before fence tracking and rewrites it. -/
theorem c1_fenced_line_rewritten :
    simplify_output "```\n1. a\n   - b\n```\n" = "```\n1. a\n   1. b\n```" := by
  decide

/-- C2: the per-line pipeline is not idempotent beyond the operator-quoting
quirk.  On the document `"<div><div>hi</div></div>"` (no operators, no
blockquotes) the first run gives `"<div>hi</div>"` and the second run gives
`"hi"`: the single-pass generic HTML unwrap finds a new match in
already-processed text. -/
theorem c2_pipeline_not_idempotent :
    simplify_output "<div><div>hi</div></div>" = "<div>hi</div>" ∧
    simplify_output (simplify_output "<div><div>hi</div></div>") = "hi" := by
  constructor <;> decide

/-- C3: a bulleted output line can still contain bold markers.  On input
`"- <b>x</b>"` the bold-stripping rules run before the HTML-tag rule
converts `<b>` to `**`, so the output line is `"- **x**"` — a bulleted list
item containing `**`. -/
theorem c3_bold_survives_in_list :
    simplify_output "- <b>x</b>" = "- **x**" := by
  decide

/-- C4 counterexample: on the scenario document the splitter produces three
sections and three files, not two — the title/intro preamble is closed as
its own section when `"## A"` is reached. -/
theorem c4_counterexample_three_files :
    (parse_markdown_file (split_read_lines
      "# Title\n\nIntro\n\n## A\nbody A\n\n## B\nbody B\n".data)).length = 3 ∧
    section_filenames "01_course.md".data
      (parse_markdown_file (split_read_lines
        "# Title\n\nIntro\n\n## A\nbody A\n\n## B\nbody B\n".data)) =
      ["01_01.md".data, "01_02.md".data, "01_03.md".data] := by
  constructor <;> decide

/-- C4 amended: the scenario document yields exactly three sections —
the title/intro preamble, the `## A` section and the `## B` section —
written to `01_01.md`, `01_02.md` and `01_03.md`. -/
theorem c4_split_scenario :
    parse_markdown_file (split_read_lines
      "# Title\n\nIntro\n\n## A\nbody A\n\n## B\nbody B\n".data) =
      [["# Title\n".data, "\n".data, "Intro\n".data, "\n".data],
       ["## A\n".data, "body A\n".data, "\n".data],
       ["## B\n".data, "body B\n".data]] ∧
    section_filenames "01_course.md".data
      (parse_markdown_file (split_read_lines
        "# Title\n\nIntro\n\n## A\nbody A\n\n## B\nbody B\n".data)) =
      ["01_01.md".data, "01_02.md".data, "01_03.md".data] := by
  constructor <;> decide

/-- C6 counterexample: a tab-indented nested item does not keep its original
indentation — the unifier re-emits the indentation as space characters
(`"\t- b"` under a numbered parent becomes `" 1. b"`). -/
theorem c6_counterexample_tab_indent :
    unify_nested_list_types ["1. a".data, "\t- b".data] =
      ["1. a".data, " 1. b".data] ∧
    List.takeWhile isPySpace "\t- b".data ≠ List.takeWhile isPySpace " 1. b".data := by
  constructor <;> decide

theorem c5_path_adjustment_witness :
    adjust_relative_path "![x](./img.png)".data 1 = "![x](../img.png)".data ∧
    adjust_relative_path "[text](notes.md)".data 1 = "[text](notes.md)".data := by
  constructor
  · exact (c5_path_adjustment 1 true "x".data "img.png".data (by decide) (by decide)
      (by decide)).1 (by decide)
  · exact (c5_path_adjustment 1 false "text".data "notes.md".data (by decide) (by decide)
      (by decide)).2.2.2 (by decide) (by decide)

/-- C6 amended: in the nested-list unification pre-pass, a list item
indented strictly deeper than the current parent is re-emitted with the
parent's marker type — `- ` if the parent is bulleted, `{ordinal}. ` with
the tracked ordinal (then incremented) if the parent is numbered —
preserving the item's original indentation width as space characters; a
nested item with no established parent context passes through unmodified;
and a list item at indentation `0` or at most the parent's indentation
becomes the new parent with the ordinal reset to `1`. -/
theorem c6_nested_item_rewrite (st : UnifyState) (l : List Char)
    (hlist : is_num_marker (pyLstrip l) = true ∨ is_bul_marker (pyLstrip l) = true) :
    (st.pindent < l.length - (pyLstrip l).length →
      ((st.ptype = some false →
         unify_step st l =
           (⟨some false, st.pindent, st.counter⟩,
            spacesN (l.length - (pyLstrip l).length) ++
              '-' :: ' ' :: nested_item_text (pyLstrip l))) ∧
       (st.ptype = some true →
         unify_step st l =
           (⟨some true, st.pindent, st.counter + 1⟩,
            spacesN (l.length - (pyLstrip l).length) ++
              natToStr st.counter ++ '.' :: ' ' :: nested_item_text (pyLstrip l))) ∧
       (st.ptype = none → unify_step st l = (st, l)))) ∧
    ((l.length - (pyLstrip l).length = 0 ∨ l.length - (pyLstrip l).length ≤ st.pindent) →
      unify_step st l =
        (⟨some (is_num_marker (pyLstrip l)), l.length - (pyLstrip l).length, 1⟩, l)) := by
  have hmarker : ¬ ((!is_num_marker (pyLstrip l) && !is_bul_marker (pyLstrip l)) = true) := by
    rcases hlist with h | h <;> simp [h]
  constructor
  · intro hlt
    have hcond : ¬ (l.length - (pyLstrip l).length = 0 ∨
        l.length - (pyLstrip l).length ≤ st.pindent) := by omega
    refine ⟨?_, ?_, ?_⟩ <;> intro hpt <;>
      (unfold unify_step; rw [if_neg hmarker, if_neg hcond, hpt])
  · intro hcond
    unfold unify_step
    rw [if_neg hmarker, if_pos hcond]

theorem c6_nested_item_rewrite_witness :
    unify_step ⟨some true, 0, 3⟩ "   - x".data = (⟨some true, 0, 4⟩, "   3. x".data) :=
  ((c6_nested_item_rewrite ⟨some true, 0, 3⟩ "   - x".data (by decide)).1 (by decide)).2.1 rfl

/-- C8: the reveal-label rule keeps a line that is empty or whitespace-only
(and then the whole per-line step emits a line); and the per-line step drops
a line only when the reveal-label rule signalled removal.  (Totality of each
rule holds by construction: every rule is a total function from lines to
lines, the reveal-label rule alone returning an `Option`.) -/
theorem c8_rules_total_blank_kept (l : List Char) :
    (pyStrip l = [] →
      remove_show_answer_headers l = some l ∧ ∀ b, (simplify_step b l).2 ≠ none) ∧
    (∀ b, (simplify_step b l).2 = none → remove_show_answer_headers l = none) := by
  constructor
  · intro h
    have h1 : remove_show_answer_headers l = some l := by
      unfold remove_show_answer_headers
      rw [h]
      rfl
    refine ⟨h1, ?_⟩
    intro b
    unfold simplify_step
    rw [h]
    rw [if_neg (show ¬ (startsWithL "```".data [] = true) from by decide)]
    cases b
    · rw [if_neg (by simp)]
      rw [h1]
      simp
    · rw [if_pos rfl]
      simp
  · intro b hnone
    unfold simplify_step at hnone
    by_cases hf : startsWithL "```".data (pyStrip l) = true
    · rw [if_pos hf] at hnone
      exact absurd hnone (by simp)
    · rw [if_neg hf] at hnone
      cases b
      · rw [if_neg (by simp)] at hnone
        cases hr : remove_show_answer_headers l
        · rfl
        · rw [hr] at hnone
          exact absurd hnone (by simp)
      · rw [if_pos rfl] at hnone
        exact absurd hnone (by simp)

theorem c8_rules_total_blank_kept_witness :
    remove_show_answer_headers " ".data = some " ".data ∧
    (simplify_step false " ".data).2 ≠ none :=
  ⟨((c8_rules_total_blank_kept " ".data).1 (by decide)).1,
   ((c8_rules_total_blank_kept " ".data).1 (by decide)).2 false⟩

/-- C9: the splitter's fence tracker toggles on any `~~~` line — the two
fence tokens are interchangeable, a region opened by ``` being closed by the
next `~~~` line — while the rewrite pipeline's tracker ignores `~~~` lines
(its state is unchanged) and sends them and the lines they "enclose" through
the full rule chain (so `# T` between `~~~` lines is still rewritten). -/
theorem c9_tilde_fence_asymmetry (st : SplitState) (b : Bool) (l : List Char)
    (ht : startsWithL "~~~".data (pyStrip l) = true)
    (hb : startsWithL "```".data (pyStrip l) = false) :
    split_step st l = ⟨st.sections, st.current ++ [l], !st.in_code⟩ ∧
    (simplify_step b l).1 = b ∧
    (simplify_step false l).2 = (remove_show_answer_headers l).map rule_chain ∧
    parse_markdown_file (split_read_lines "```\n## X\n~~~\n## Y\n".data) =
      [["```\n".data, "## X\n".data, "~~~\n".data], ["## Y\n".data]] ∧
    simplify_lines ["~~~".data, "# T".data, "~~~".data] =
      ["~~~".data, "### T".data, "~~~".data] := by
  refine ⟨?_, ?_, ?_, by decide, by decide⟩
  · unfold split_step
    rw [if_pos (show is_split_fence l = true from by unfold is_split_fence; rw [ht, hb]; rfl)]
  · unfold simplify_step
    rw [if_neg (by rw [hb]; simp)]
    cases b
    · rw [if_neg (by simp)]
      cases hr : remove_show_answer_headers l <;> simp [hr]
    · rw [if_pos rfl]
  · unfold simplify_step
    rw [if_neg (by rw [hb]; simp)]
    rw [if_neg (by simp)]
    cases hr : remove_show_answer_headers l <;> simp [hr]

theorem c9_tilde_fence_asymmetry_witness :
    split_step ⟨[], [], false⟩ "~~~md".data = ⟨[], ["~~~md".data], true⟩ ∧
    (simplify_step true "~~~md".data).1 = true :=
  ⟨(c9_tilde_fence_asymmetry ⟨[], [], false⟩ true "~~~md".data (by decide) (by decide)).1,
   (c9_tilde_fence_asymmetry ⟨[], [], false⟩ true "~~~md".data (by decide) (by decide)).2.1⟩

/-- C10 counterexample: the rewrite pipeline's output can end with a newline
character.  On input `"x\n\n"` (which ends with a newline) the output is
`"x\n"` — its final character is a newline, because the last processed line
is empty. -/
theorem c10_counterexample_trailing_newline :
    simplify_output "x\n\n" = "x\n" ∧
    (simplify_output "x\n\n").data.getLast? = some '\n' := by
  constructor <;> decide

end SplitSimplify
